import Mathlib

/-!
Verification of the bounded, retention-ranked membership store of the
`mythologizer_postgres` repository.

The SQL statements executed by `insert_agent_myth_safe`,
`insert_agent_myth_safe_with_session` (agent_store.py) and
`update_retentions_and_reorder`, `get_myth_ids_and_retention_from_agents_memory`
(memory_store.py) are embedded as pure functions over an explicit table state.

Modelling conventions:
- the `agent_myths` table is a list of rows; the `agents` table a list of agents;
- `retention` (a Python float used only in order comparisons) is modelled as `Rat`;
- `position` (an SQL integer that transiently takes sentinel values) is `Int`;
- a SQL `ROW_NUMBER() OVER (ORDER BY k) - 1` of a row, for a key `k` that is
  injective on the selected rows, is the number of rows strictly preceding it
  under `k`; the tie cases (which SQL leaves unspecified, and which the schema
  constraints `UNIQUE (myth_id)` / `UNIQUE (agent_id, position)` rule out) are
  resolved deterministically by `myth_id`;
- a committed transaction returns the new table, a rolled-back one the table at
  `BEGIN`; error exits are `Except.error` values mirroring the distinct
  error messages printed by the Python code.
-/

/-- One row of the `agent_myths` table. -/
structure Entry where
  myth_id : Nat
  agent_id : Nat
  position : Int
  retention : Rat

deriving DecidableEq, Repr

/-- One row of the `agents` table (the columns the store reads). -/
structure Agent where
  id : Nat
  memory_size : Nat

deriving DecidableEq, Repr

abbrev Table := List Entry

/-- The database state visible to the membership store. -/
structure DB where
  agents : List Agent
  agent_myths : Table

deriving DecidableEq, Repr

/-- `SELECT ... FROM agent_myths WHERE agent_id = aid` (in table order). -/
def ownerRows (t : Table) (aid : Nat) : Table :=
  t.filter (fun e => e.agent_id == aid)

/-- The RankingPolicy order `ORDER BY retention DESC, myth_id ASC`:
`retBefore a b` holds when row `a` sorts strictly before row `b`. -/
def retBefore (a b : Entry) : Bool :=
  decide (b.retention < a.retention) ||
    (decide (a.retention = b.retention) && decide (a.myth_id < b.myth_id))

/-- The order `ORDER BY position ASC` used by the second reindexing step;
ties on `position` (impossible under the schema constraint
`UNIQUE (agent_id, position)` at the points where this is used) are broken
by `myth_id` to keep the model deterministic. -/
def posBefore (a b : Entry) : Bool :=
  decide (a.position < b.position) ||
    (decide (a.position = b.position) && decide (a.myth_id < b.myth_id))

/-- `ROW_NUMBER() OVER (ORDER BY ...) - 1` for row `e` among the rows `l`:
the number of rows of `l` strictly before `e` in the order `lt`. -/
def rankIn (lt : Entry → Entry → Bool) (l : Table) (e : Entry) : Nat :=
  (l.filter (fun x => lt x e)).length

/-- The `UPDATE agent_myths SET position = rownum + offset FROM (SELECT myth_id,
ROW_NUMBER() OVER (ORDER BY lt) - 1 AS new_pos FROM agent_myths WHERE
agent_id = aid) reordered WHERE agent_myths.myth_id = reordered.myth_id`
statement shape shared by both insert variants: every row whose `myth_id`
occurs among the owner's rows receives that owner row's row number
(the outer `WHERE` matches on `myth_id` alone). -/
def assignRanks (lt : Entry → Entry → Bool) (offset : Int) (t : Table)
    (aid : Nat) : Table :=
  let rows := ownerRows t aid
  t.map (fun e =>
    match rows.find? (fun r => r.myth_id == e.myth_id) with
    | some r => { e with position := (rankIn lt rows r : Int) + offset }
    | none => e)

/-- `SELECT myth_id FROM agent_myths WHERE agent_id = aid ORDER BY position DESC
LIMIT 1`: a row of maximal position (first such row in table order; SQL leaves
the tie unspecified, and the schema constraint rules ties out). -/
def maxPositionRow (l : Table) : Option Entry :=
  l.foldl (fun acc e =>
    match acc with
    | none => some e
    | some m => if m.position < e.position then some e else acc) none

/-- `DELETE FROM agent_myths WHERE myth_id = (SELECT ... ORDER BY position DESC
LIMIT 1)`: the eviction statement of both insert variants. -/
def evictWorst (t : Table) (aid : Nat) : Table :=
  match maxPositionRow (ownerRows t aid) with
  | some v => t.filter (fun e => !(e.myth_id == v.myth_id))
  | none => t

/-- `UPDATE agent_myths SET position = position + 10000 WHERE agent_id = aid`. -/
def shiftUp (t : Table) (aid : Nat) : Table :=
  t.map (fun e =>
    if e.agent_id == aid then { e with position := e.position + 10000 } else e)

/-- `UPDATE agent_myths SET position = position - 9999 WHERE agent_id = aid AND
myth_id != mid`. -/
def shiftDownExcept (t : Table) (aid mid : Nat) : Table :=
  t.map (fun e =>
    if e.agent_id == aid && !(e.myth_id == mid) then
      { e with position := e.position - 9999 }
    else e)

/-- The two-step reordering of `insert_agent_myth_safe` (agent_store.py lines
239-264): ranks by `(retention DESC, myth_id ASC)` offset by 10000, then ranks
by `position ASC`. -/
def reindexTwoStep (t : Table) (aid : Nat) : Table :=
  assignRanks posBefore 0 (assignRanks retBefore 10000 t aid) aid

/-- The single-statement reordering of `insert_agent_myth_safe_with_session`
(agent_store.py lines 433-443): `position` becomes the row number under
`(retention DESC, myth_id ASC)`. -/
def reindexByRetention (t : Table) (aid : Nat) : Table :=
  assignRanks retBefore 0 t aid

/-- `SELECT memory_size FROM agents WHERE id = aid` (with or without
`FOR UPDATE`; locking has no sequential effect). -/
def findAgent (db : DB) (aid : Nat) : Option Agent :=
  db.agents.find? (fun a => a.id == aid)

/-- `SELECT 1 FROM agent_myths WHERE myth_id = mid` returned a row. -/
def mythAssigned (t : Table) (mid : Nat) : Bool :=
  t.any (fun e => e.myth_id == mid)

/-- The distinct failure exits of the insert functions, one per distinct
error message printed before `return False`. -/
inductive InsErr where
  | retentionNonPositive
  | agentNotFound
  | zeroMemorySize
  | mythAlreadyAssigned

deriving DecidableEq, Repr

/-- The body of one attempt of `insert_agent_myth_safe` (agent_store.py lines
172-267): the transaction from `BEGIN` to `commit`, with each failing check
rolling back and returning its distinct error. -/
def insertAttemptBody (db : DB) (mid aid : Nat) (retention : Rat) :
    Except InsErr DB :=
  match findAgent db aid with
  | none => .error .agentNotFound
  | some a =>
    if a.memory_size == 0 then .error .zeroMemorySize
    else if mythAssigned db.agent_myths mid then .error .mythAlreadyAssigned
    else
      let cur_count := (ownerRows db.agent_myths aid).length
      let t1 := if a.memory_size ≤ cur_count then evictWorst db.agent_myths aid
                else db.agent_myths
      let t2 := shiftUp t1 aid
      let t3 := t2 ++ [⟨mid, aid, 0, retention⟩]
      let t4 := shiftDownExcept t3 aid mid
      .ok { db with agent_myths := reindexTwoStep t4 aid }

/-- `insert_agent_myth_safe` (agent_store.py lines 150-280) under sequential
execution: the retention validation followed by one attempt (with no concurrent
writer no statement raises, so the retry loop runs its body once). -/
def insert_agent_myth_safe (db : DB) (mid aid : Nat) (retention : Rat) :
    Except InsErr DB :=
  if retention ≤ 0 then .error .retentionNonPositive
  else insertAttemptBody db mid aid retention

/-- The boolean/state surface of `insert_agent_myth_safe`: `True` with the
committed table, or `False` with the table as of `BEGIN` (every failure path
calls `conn.rollback()` or commits nothing). -/
def runInsert (db : DB) (mid aid : Nat) (retention : Rat) : Bool × DB :=
  match insert_agent_myth_safe db mid aid retention with
  | .ok db' => (true, db')
  | .error _ => (false, db)

/-- `COALESCE(MAX(position), -1)` over a set of rows. -/
def maxPosition (l : Table) : Int :=
  l.foldl (fun acc e => max acc e.position) (-1)

/-- `insert_agent_myth_safe_with_session` (agent_store.py lines 354-449) under
sequential execution: same checks, eviction followed by a contiguity reorder,
insertion at `COALESCE(MAX(position), -1) + 1`, then the single-statement
retention reorder. -/
def insert_agent_myth_safe_with_session (db : DB) (mid aid : Nat)
    (retention : Rat) : Except InsErr DB :=
  if retention ≤ 0 then .error .retentionNonPositive
  else
    match findAgent db aid with
    | none => .error .agentNotFound
    | some a =>
      if a.memory_size == 0 then .error .zeroMemorySize
      else if mythAssigned db.agent_myths mid then .error .mythAlreadyAssigned
      else
        let cur_count := (ownerRows db.agent_myths aid).length
        let t1 := if a.memory_size ≤ cur_count then
                    assignRanks posBefore 0 (evictWorst db.agent_myths aid) aid
                  else db.agent_myths
        let next := maxPosition (ownerRows t1 aid) + 1
        let t2 := t1 ++ [⟨mid, aid, next, retention⟩]
        .ok { db with agent_myths := reindexByRetention t2 aid }

/-- What the environment does to one attempt of the retry loop of
`insert_agent_myth_safe`: the body runs to a `return` (`ok`), or a statement
raises an error whose text contains `duplicate key value violates unique
constraint` (`raiseUnique`), or it raises any other error (`raiseOther`). -/
inductive AttemptOutcome where
  | ok (b : Bool)
  | raiseUnique
  | raiseOther

deriving DecidableEq, Repr

/-- `time.sleep(0.01 * (2 ** attempt))`: the backoff delay in seconds. -/
def backoffDelay (attempt : Nat) : Rat :=
  (1 / 100 : Rat) * 2 ^ attempt

/-- The retry loop `for attempt in range(max_retries)` of
`insert_agent_myth_safe` (agent_store.py lines 171-280), starting at a given
attempt index: returns the boolean result delivered to the caller and the list
of backoff delays slept.  Only an exception matching the duplicate-key text is
retried, and only while `attempt < max_retries - 1`; any other exception, and a
body that runs to a `return`, end the loop at once. -/
def retryRun (outcomes : Nat → AttemptOutcome) (max_retries attempt : Nat) :
    Bool × List Rat :=
  if attempt < max_retries then
    match outcomes attempt with
    | .ok b => (b, [])
    | .raiseOther => (false, [])
    | .raiseUnique =>
      if attempt < max_retries - 1 then
        let r := retryRun outcomes max_retries (attempt + 1)
        (r.1, backoffDelay attempt :: r.2)
      else (false, [])
  else (false, [])
termination_by max_retries - attempt
decreasing_by omega

/-- `get_myth_ids_and_retention_from_agents_memory` (memory_store.py lines
6-34): the owner's rows ordered by `position ASC`, split into the id list and
the retention list. -/
def get_myth_ids_and_retention_from_agents_memory (t : Table) (aid : Nat) :
    List Nat × List Rat :=
  let rows := (ownerRows t aid).mergeSort
    (fun a b => decide (a.position ≤ b.position))
  (rows.map (fun e => e.myth_id), rows.map (fun e => e.retention))

/-- Modelled from the spec: the SQL function
`recalculate_agent_myth_positions_by_retention` invoked by
`update_retentions_and_reorder` is created by the schema files, which are not
among the sources. Spec section 4.2 (Reindexer): given an owner id, load all
its entries, sort by RankingPolicy (retention descending, item id ascending),
assign rank 0..n-1 in that order; rows of other owners are untouched. -/
def recalculate_agent_myth_positions_by_retention (t : Table) (aid : Nat) :
    Table :=
  t.map (fun e =>
    if e.agent_id == aid then
      { e with position := (rankIn retBefore (ownerRows t aid) e : Int) }
    else e)

/-- The update loop of `update_retentions_and_reorder` (memory_store.py lines
56-66): apply each `UPDATE agent_myths SET retention = r WHERE myth_id = m AND
agent_id = aid` in order; `cur.rowcount == 0` (no row matched) aborts with
`none`. -/
def applyPairs (t : Table) (aid : Nat) : List (Nat × Rat) → Option Table
  | [] => some t
  | (m, r) :: rest =>
    if t.any (fun e => e.myth_id == m && e.agent_id == aid) then
      applyPairs
        (t.map (fun e =>
          if e.myth_id == m && e.agent_id == aid then { e with retention := r }
          else e))
        aid rest
    else none

/-- `update_retentions_and_reorder` (memory_store.py lines 37-76): empty input
returns `True` untouched; otherwise the pairs are applied in order, a missing
membership rolls back to the table at `BEGIN` and returns `False`, and on
success the reindex function is invoked once and the result committed. -/
def update_retentions_and_reorder (t : Table) (aid : Nat)
    (pairs : List (Nat × Rat)) : Bool × Table :=
  if pairs.isEmpty then (true, t)
  else
    match applyPairs t aid pairs with
    | some t' => (true, recalculate_agent_myth_positions_by_retention t' aid)
    | none => (false, t)

/-- The schema constraint `UNIQUE (myth_id)` on `agent_myths`: the global
per-item uniqueness invariant. -/
def NodupIds (t : Table) : Prop :=
  (t.map (fun e => e.myth_id)).Nodup

instance : DecidablePred NodupIds := fun t => by
  unfold NodupIds; infer_instance

/-- The contiguous-ordering invariant for one owner: each of its rows sits at
its RankingPolicy rank. -/
def InvariantFor (t : Table) (aid : Nat) : Prop :=
  ∀ e ∈ ownerRows t aid,
    e.position = ((rankIn retBefore (ownerRows t aid) e : Nat) : Int)

instance (t : Table) (aid : Nat) : Decidable (InvariantFor t aid) :=
  inferInstanceAs (Decidable (∀ e ∈ ownerRows t aid, _))

/-- Pointwise form of the rank assignment: the owner's rows are re-positioned
at their own rank (plus offset), other rows are untouched. -/
def rankFun (lt : Entry → Entry → Bool) (t : Table) (aid : Nat) (off : Int)
    (e : Entry) : Entry :=
  if e.agent_id == aid then
    { e with position := (rankIn lt (ownerRows t aid) e : Int) + off }
  else e

/-- Canonical form of `assignRanks` on a table with duplicate-free
`myth_id`: exactly the owner's rows are re-positioned, each at its own rank. -/
def rankMap (lt : Entry → Entry → Bool) (off : Int) (t : Table) (aid : Nat) :
    Table :=
  t.map (rankFun lt t aid off)

/-- The table the eviction check of the two insert variants starts from: the
original rows, minus the eviction victim when the owner is at (or above)
capacity `ms`. -/
def insBase (t : Table) (aid : Nat) (ms : Nat) : Table :=
  if ms ≤ (ownerRows t aid).length then evictWorst t aid else t

/-- The table `insert_agent_myth_safe` hands to its final two-step reindex:
shift, insert at position 0, unshift. -/
def insTable (t : Table) (mid aid : Nat) (r : Rat) (ms : Nat) : Table :=
  shiftDownExcept (shiftUp (insBase t aid ms) aid ++ [⟨mid, aid, 0, r⟩]) aid mid

deriving instance DecidableEq for Except

def DBw : DB := DB.mk [Agent.mk 1 3, Agent.mk 2 2]
  [Entry.mk 5 1 0 1, Entry.mk 6 2 0 3]

def DBw1 : DB := DB.mk [Agent.mk 1 3, Agent.mk 2 2]
  [Entry.mk 5 1 1 1, Entry.mk 6 2 0 3, Entry.mk 7 1 0 2]

def DBfull : DB := DB.mk [Agent.mk 1 2]
  [Entry.mk 5 1 0 3, Entry.mk 6 1 1 2]

/-- The table state just before the final reorder of
`insert_agent_myth_safe_with_session`: eviction plus contiguity reorder when at
capacity, then insertion at `COALESCE(MAX(position), -1) + 1`. -/
def sessBase (t : Table) (aid ms : Nat) : Table :=
  if ms ≤ (ownerRows t aid).length then
    assignRanks posBefore 0 (evictWorst t aid) aid
  else t

def sessTable (t : Table) (mid aid : Nat) (r : Rat) (ms : Nat) : Table :=
  sessBase t aid ms ++
    [⟨mid, aid, maxPosition (ownerRows (sessBase t aid ms) aid) + 1, r⟩]

/-- Rows that agree on everything but (for the owner's rows) position. -/
def PosEquiv (aid : Nat) (x y : Entry) : Prop :=
  x = y ∨ (x.agent_id = aid ∧ y.agent_id = aid ∧ x.myth_id = y.myth_id ∧
    x.retention = y.retention)

def DBzero : DB := DB.mk [Agent.mk 3 0] []

/-! ### Lemmas and claim theorems -/

lemma retBefore_iff (a b : Entry) :
    retBefore a b = true ↔
      b.retention < a.retention ∨
        (a.retention = b.retention ∧ a.myth_id < b.myth_id) := by
  simp [retBefore]

lemma posBefore_iff (a b : Entry) :
    posBefore a b = true ↔
      a.position < b.position ∨
        (a.position = b.position ∧ a.myth_id < b.myth_id) := by
  simp [posBefore]

lemma retBefore_trans {a b c : Entry} (h1 : retBefore a b = true)
    (h2 : retBefore b c = true) : retBefore a c = true := by
  rw [retBefore_iff] at h1 h2 ⊢
  rcases h1 with h1 | ⟨h1, h1'⟩ <;> rcases h2 with h2 | ⟨h2, h2'⟩
  · exact Or.inl (lt_trans h2 h1)
  · exact Or.inl (h2 ▸ h1)
  · exact Or.inl (lt_of_lt_of_eq h2 h1.symm)
  · exact Or.inr ⟨h1.trans h2, Nat.lt_trans h1' h2'⟩

lemma retBefore_irrefl (a : Entry) : retBefore a a = false := by
  rw [Bool.eq_false_iff]
  intro h
  rw [retBefore_iff] at h
  rcases h with h | ⟨_, h'⟩
  · exact lt_irrefl _ h
  · exact Nat.lt_irrefl _ h'

lemma retBefore_conn {a b : Entry} (h : a.myth_id ≠ b.myth_id) :
    retBefore a b = true ∨ retBefore b a = true := by
  rw [retBefore_iff, retBefore_iff]
  rcases lt_trichotomy a.retention b.retention with hr | hr | hr
  · exact Or.inr (Or.inl hr)
  · rcases Nat.lt_or_ge a.myth_id b.myth_id with hid | hid
    · exact Or.inl (Or.inr ⟨hr, hid⟩)
    · exact Or.inr (Or.inr ⟨hr.symm, Nat.lt_of_le_of_ne hid (Ne.symm h)⟩)
  · exact Or.inl (Or.inl hr)

lemma posBefore_trans {a b c : Entry} (h1 : posBefore a b = true)
    (h2 : posBefore b c = true) : posBefore a c = true := by
  rw [posBefore_iff] at h1 h2 ⊢
  rcases h1 with h1 | ⟨h1, h1'⟩ <;> rcases h2 with h2 | ⟨h2, h2'⟩
  · exact Or.inl (lt_trans h1 h2)
  · exact Or.inl (lt_of_lt_of_eq h1 h2)
  · exact Or.inl (lt_of_eq_of_lt h1 h2)
  · exact Or.inr ⟨h1.trans h2, Nat.lt_trans h1' h2'⟩

lemma posBefore_irrefl (a : Entry) : posBefore a a = false := by
  rw [Bool.eq_false_iff]
  intro h
  rw [posBefore_iff] at h
  rcases h with h | ⟨_, h'⟩
  · exact lt_irrefl _ h
  · exact Nat.lt_irrefl _ h'

lemma posBefore_conn {a b : Entry} (h : a.myth_id ≠ b.myth_id) :
    posBefore a b = true ∨ posBefore b a = true := by
  rw [posBefore_iff, posBefore_iff]
  rcases lt_trichotomy a.position b.position with hp | hp | hp
  · exact Or.inl (Or.inl hp)
  · rcases Nat.lt_or_ge a.myth_id b.myth_id with hid | hid
    · exact Or.inl (Or.inr ⟨hp, hid⟩)
    · exact Or.inr (Or.inr ⟨hp.symm, Nat.lt_of_le_of_ne hid (Ne.symm h)⟩)
  · exact Or.inr (Or.inl hp)

lemma rankIn_eq_countP (lt : Entry → Entry → Bool) (l : Table) (e : Entry) :
    rankIn lt l e = l.countP (fun x => lt x e) := by
  rw [rankIn, List.countP_eq_length_filter]

lemma rankIn_lt_length {lt : Entry → Entry → Bool} {l : Table} {e : Entry}
    (he : e ∈ l) (hirr : lt e e = false) : rankIn lt l e < l.length := by
  rw [rankIn_eq_countP]
  induction l with
  | nil => cases he
  | cons a l ih =>
    rcases List.mem_cons.mp he with rfl | hmem
    · rw [List.countP_cons]
      have h0 := List.countP_le_length (l := l) (p := fun x => lt x e)
      simp [hirr]
      omega
    · rw [List.countP_cons]
      have h2 := ih hmem
      simp only [List.length_cons]
      by_cases hla : lt a e = true
      · simp [hla]; omega
      · simp [hla]; omega

lemma rankIn_strict_mono {lt : Entry → Entry → Bool}
    (htrans : ∀ x y z, lt x y = true → lt y z = true → lt x z = true)
    {l : Table} {a b : Entry} (ha : a ∈ l) (hirr : lt a a = false)
    (hab : lt a b = true) : rankIn lt l a < rankIn lt l b := by
  rw [rankIn_eq_countP, rankIn_eq_countP]
  induction l with
  | nil => cases ha
  | cons c l ih =>
    rw [List.countP_cons, List.countP_cons]
    rcases List.mem_cons.mp ha with rfl | hmem
    · have hmono := List.countP_mono_left (l := l)
        (p := fun x => lt x a) (q := fun x => lt x b)
        (fun x _ hx => htrans x a b hx hab)
      simp [hirr, hab]
      omega
    · have h2 := ih hmem
      by_cases hca : lt c a = true
      · have hcb : lt c b = true := htrans _ _ _ hca hab
        simp [hca, hcb]; omega
      · simp only [hca]
        by_cases hcb : lt c b = true
        · simp [hca, hcb]; omega
        · simp [hca, hcb]; omega

/-- Two rows of a table whose `myth_id` column is duplicate-free and that share
a `myth_id` are the same row. -/
lemma eq_of_mem_of_id_eq {t : Table} (h : NodupIds t) {a b : Entry}
    (ha : a ∈ t) (hb : b ∈ t) (hid : a.myth_id = b.myth_id) : a = b :=
  List.inj_on_of_nodup_map h ha hb hid

lemma pairwise_ne_ids {t : Table} (h : NodupIds t) :
    t.Pairwise (fun a b => a.myth_id ≠ b.myth_id) := by
  have := List.pairwise_map.mp (h : (t.map (fun e => e.myth_id)).Nodup)
  exact this

lemma rankIn_ne {lt : Entry → Entry → Bool}
    (htrans : ∀ x y z, lt x y = true → lt y z = true → lt x z = true)
    (hirr : ∀ x, lt x x = false)
    (hconn : ∀ x y : Entry, x.myth_id ≠ y.myth_id →
      lt x y = true ∨ lt y x = true)
    {l : Table} {a b : Entry} (ha : a ∈ l) (hb : b ∈ l)
    (hid : a.myth_id ≠ b.myth_id) : rankIn lt l a ≠ rankIn lt l b := by
  rcases hconn a b hid with hab | hba
  · exact Nat.ne_of_lt (rankIn_strict_mono htrans ha (hirr a) hab)
  · exact (Nat.ne_of_lt (rankIn_strict_mono htrans hb (hirr b) hba)).symm

lemma lt_of_rankIn_lt {lt : Entry → Entry → Bool}
    (htrans : ∀ x y z, lt x y = true → lt y z = true → lt x z = true)
    (hirr : ∀ x, lt x x = false)
    (hconn : ∀ x y : Entry, x.myth_id ≠ y.myth_id →
      lt x y = true ∨ lt y x = true)
    {l : Table} {a b : Entry} (ha : a ∈ l) (hb : b ∈ l)
    (hid : a.myth_id ≠ b.myth_id) (hr : rankIn lt l a < rankIn lt l b) :
    lt a b = true := by
  rcases hconn a b hid with hab | hba
  · exact hab
  · have := rankIn_strict_mono htrans hb (hirr b) hba
    omega

lemma list_toFinset_map {α β : Type} [DecidableEq α] [DecidableEq β]
    (l : List α) (f : α → β) : (l.map f).toFinset = l.toFinset.image f := by
  ext x
  simp

/-- The list of ranks of a duplicate-free row list is duplicate-free. -/
lemma ranks_nodup {lt : Entry → Entry → Bool}
    (htrans : ∀ x y z, lt x y = true → lt y z = true → lt x z = true)
    (hirr : ∀ x, lt x x = false)
    (hconn : ∀ x y : Entry, x.myth_id ≠ y.myth_id →
      lt x y = true ∨ lt y x = true)
    {l : Table} (h : NodupIds l) : (l.map (rankIn lt l)).Nodup := by
  show List.Pairwise _ _
  rw [List.pairwise_map]
  have hpair := pairwise_ne_ids h
  refine (List.Pairwise.imp_of_mem ?_ hpair)
  intro a b hma hmb hid
  exact rankIn_ne htrans hirr hconn hma hmb hid

/-- The set of ranks of a duplicate-free row list is `{0, ..., n-1}`. -/
lemma ranks_toFinset_range {lt : Entry → Entry → Bool}
    (htrans : ∀ x y z, lt x y = true → lt y z = true → lt x z = true)
    (hirr : ∀ x, lt x x = false)
    (hconn : ∀ x y : Entry, x.myth_id ≠ y.myth_id →
      lt x y = true ∨ lt y x = true)
    {l : Table} (h : NodupIds l) :
    (l.map (rankIn lt l)).toFinset = Finset.range l.length := by
  have hnd := ranks_nodup htrans hirr hconn h
  refine Finset.eq_of_subset_of_card_le ?_ ?_
  · intro x hx
    rw [List.mem_toFinset, List.mem_map] at hx
    obtain ⟨e, he, rfl⟩ := hx
    rw [Finset.mem_range]
    exact rankIn_lt_length he (hirr e)
  · rw [List.toFinset_card_of_nodup hnd, Finset.card_range, List.length_map]

/-- In a duplicate-free row list, the number of rows ranked strictly below a
member equals that member's rank. -/
lemma countP_rank_lt {lt : Entry → Entry → Bool}
    (htrans : ∀ x y z, lt x y = true → lt y z = true → lt x z = true)
    (hirr : ∀ x, lt x x = false)
    (hconn : ∀ x y : Entry, x.myth_id ≠ y.myth_id →
      lt x y = true ∨ lt y x = true)
    {l : Table} (h : NodupIds l) {e : Entry} (he : e ∈ l) :
    l.countP (fun x => decide (rankIn lt l x < rankIn lt l e)) =
      rankIn lt l e := by
  have hnd := ranks_nodup htrans hirr hconn h
  have hrange := ranks_toFinset_range htrans hirr hconn h
  have hklt : rankIn lt l e < l.length := rankIn_lt_length he (hirr e)
  set k := rankIn lt l e with hk
  have h1 : l.countP (fun x => decide (rankIn lt l x < k)) =
      (l.map (rankIn lt l)).countP (fun m => decide (m < k)) := by
    rw [List.countP_map]
    rfl
  rw [h1, List.countP_eq_length_filter]
  have h2 : ((l.map (rankIn lt l)).filter (fun m => decide (m < k))).Nodup :=
    List.Nodup.filter _ hnd
  rw [← List.toFinset_card_of_nodup h2, List.toFinset_filter, hrange]
  have h3 : (Finset.range l.length).filter (fun m => decide (m < k) = true) =
      Finset.range k := by
    ext x
    simp only [Finset.mem_filter, Finset.mem_range, decide_eq_true_eq]
    omega
  rw [h3, Finset.card_range]

lemma Entry_eq_of_fields {x y : Entry} (h1 : x.myth_id = y.myth_id)
    (h2 : x.agent_id = y.agent_id) (h3 : x.position = y.position)
    (h4 : x.retention = y.retention) : x = y := by
  cases x; cases y; simp_all

lemma retBefore_fields {x y e f : Entry} (h1 : x.myth_id = y.myth_id)
    (h2 : x.retention = y.retention) (h3 : e.myth_id = f.myth_id)
    (h4 : e.retention = f.retention) : retBefore x e = retBefore y f := by
  simp [retBefore, h1, h2, h3, h4]

lemma mem_ownerRows {t : Table} {aid : Nat} {e : Entry} :
    e ∈ ownerRows t aid ↔ e ∈ t ∧ e.agent_id = aid := by
  simp [ownerRows]

lemma ownerRows_map {t : Table} {f : Entry → Entry} {aid : Nat}
    (hf : ∀ e, (f e).agent_id = e.agent_id) :
    ownerRows (t.map f) aid = (ownerRows t aid).map f := by
  unfold ownerRows
  rw [List.filter_map]
  congr 1
  apply List.filter_congr
  intro e _
  simp [Function.comp, hf]

lemma ownerRows_append (t u : Table) (aid : Nat) :
    ownerRows (t ++ u) aid = ownerRows t aid ++ ownerRows u aid :=
  List.filter_append t u

lemma NodupIds_filter {t : Table} (h : NodupIds t) (p : Entry → Bool) :
    NodupIds (t.filter p) := by
  have hsub : ((t.filter p).map (fun e => e.myth_id)).Sublist
      (t.map (fun e => e.myth_id)) :=
    List.Sublist.map _ (List.filter_sublist t)
  exact hsub.nodup h

lemma NodupIds_ownerRows {t : Table} (h : NodupIds t) (aid : Nat) :
    NodupIds (ownerRows t aid) :=
  NodupIds_filter h _

lemma NodupIds_map {t : Table} {f : Entry → Entry}
    (hf : ∀ e, (f e).myth_id = e.myth_id) (h : NodupIds t) :
    NodupIds (t.map f) := by
  unfold NodupIds
  rw [List.map_map]
  have : ((fun e : Entry => e.myth_id) ∘ f) = fun e : Entry => e.myth_id := by
    funext e; exact hf e
  rw [this]
  exact h

lemma mythAssigned_false_iff {t : Table} {mid : Nat} :
    mythAssigned t mid = false ↔ ∀ e ∈ t, e.myth_id ≠ mid := by
  simp [mythAssigned, List.any_eq_true]

lemma NodupIds_append_single {t : Table} {mid aid : Nat} {p : Int} {r : Rat}
    (h : NodupIds t) (hfree : mythAssigned t mid = false) :
    NodupIds (t ++ [⟨mid, aid, p, r⟩]) := by
  unfold NodupIds
  rw [List.map_append, List.nodup_append]
  refine ⟨h, List.nodup_singleton _, ?_⟩
  intro x hx hy
  simp only [List.map_cons, List.map_nil, List.mem_singleton] at hy
  subst hy
  rw [List.mem_map] at hx
  obtain ⟨e, he, hid⟩ := hx
  exact (mythAssigned_false_iff.mp hfree e he) hid

lemma rankFun_myth_id (lt : Entry → Entry → Bool) (t : Table) (aid : Nat)
    (off : Int) (e : Entry) : (rankFun lt t aid off e).myth_id = e.myth_id := by
  unfold rankFun; split <;> rfl

lemma rankFun_agent_id (lt : Entry → Entry → Bool) (t : Table) (aid : Nat)
    (off : Int) (e : Entry) :
    (rankFun lt t aid off e).agent_id = e.agent_id := by
  unfold rankFun; split <;> rfl

lemma rankFun_retention (lt : Entry → Entry → Bool) (t : Table) (aid : Nat)
    (off : Int) (e : Entry) :
    (rankFun lt t aid off e).retention = e.retention := by
  unfold rankFun; split <;> rfl

lemma rankFun_owner {lt : Entry → Entry → Bool} {t : Table} {aid : Nat}
    {off : Int} {e : Entry} (h : e.agent_id = aid) :
    rankFun lt t aid off e =
      { e with position := (rankIn lt (ownerRows t aid) e : Int) + off } := by
  unfold rankFun
  rw [if_pos (beq_iff_eq.mpr h)]

lemma rankFun_not_owner {lt : Entry → Entry → Bool} {t : Table} {aid : Nat}
    {off : Int} {e : Entry} (h : ¬ e.agent_id = aid) :
    rankFun lt t aid off e = e := by
  unfold rankFun
  rw [if_neg]
  simp [h]

lemma assignRanks_eq_rankMap {lt : Entry → Entry → Bool} {off : Int}
    {t : Table} {aid : Nat} (h : NodupIds t) :
    assignRanks lt off t aid = rankMap lt off t aid := by
  unfold assignRanks rankMap
  refine List.map_congr_left ?_
  intro e he
  by_cases hag : e.agent_id = aid
  · have hmem : e ∈ ownerRows t aid := mem_ownerRows.mpr ⟨he, hag⟩
    cases hfind : (ownerRows t aid).find? (fun r => r.myth_id == e.myth_id) with
    | none =>
      exfalso
      have := List.find?_eq_none.mp hfind e hmem
      simp at this
    | some r =>
      have hr : r ∈ ownerRows t aid := List.mem_of_find?_eq_some hfind
      have hpred : r.myth_id = e.myth_id := by
        have := List.find?_some hfind
        simpa using this
      have hre : r = e :=
        eq_of_mem_of_id_eq h (List.mem_of_mem_filter hr) he hpred
      subst hre
      rw [rankFun_owner hag]
  · cases hfind : (ownerRows t aid).find? (fun r => r.myth_id == e.myth_id) with
    | none => rw [rankFun_not_owner hag]
    | some r =>
      exfalso
      have hr : r ∈ ownerRows t aid := List.mem_of_find?_eq_some hfind
      have hpred : r.myth_id = e.myth_id := by
        have := List.find?_some hfind
        simpa using this
      have hre : r = e :=
        eq_of_mem_of_id_eq h (List.mem_of_mem_filter hr) he hpred
      exact hag (hre ▸ (mem_ownerRows.mp hr).2)

lemma retBefore_transitive : ∀ x y z : Entry, retBefore x y = true →
    retBefore y z = true → retBefore x z = true :=
  fun _ _ _ => retBefore_trans

lemma retBefore_connected : ∀ x y : Entry, x.myth_id ≠ y.myth_id →
    retBefore x y = true ∨ retBefore y x = true :=
  fun _ _ => retBefore_conn

lemma posBefore_transitive : ∀ x y z : Entry, posBefore x y = true →
    posBefore y z = true → posBefore x z = true :=
  fun _ _ _ => posBefore_trans

lemma posBefore_connected : ∀ x y : Entry, x.myth_id ≠ y.myth_id →
    posBefore x y = true ∨ posBefore y x = true :=
  fun _ _ => posBefore_conn

/-- Among the owner's rows re-positioned at retention rank plus 10000, the
`position ASC` row number of a row equals its retention rank. -/
lemma step2_rank {t : Table} {aid : Nat} (hnodup : NodupIds (ownerRows t aid))
    {e : Entry} (heo : e ∈ ownerRows t aid) :
    rankIn posBefore
      ((ownerRows t aid).map (rankFun retBefore t aid 10000))
      ({ e with position :=
          (rankIn retBefore (ownerRows t aid) e : Int) + 10000 }) =
      rankIn retBefore (ownerRows t aid) e := by
  rw [rankIn_eq_countP, List.countP_map]
  have hcong : (ownerRows t aid).countP
      ((fun x => posBefore x
        { e with position :=
            (rankIn retBefore (ownerRows t aid) e : Int) + 10000 }) ∘
        rankFun retBefore t aid 10000) =
      (ownerRows t aid).countP (fun x =>
        decide (rankIn retBefore (ownerRows t aid) x <
          rankIn retBefore (ownerRows t aid) e)) := by
    refine List.countP_congr ?_
    intro x hx
    have hxa : x.agent_id = aid := (mem_ownerRows.mp hx).2
    simp only [Function.comp_apply, rankFun_owner hxa, posBefore_iff,
      decide_eq_true_eq]
    constructor
    · rintro (hlt | ⟨heq, hid⟩)
      · omega
      · exfalso
        have hxid : x.myth_id ≠ e.myth_id := by
          intro hxe
          have hxe2 : x = e := eq_of_mem_of_id_eq hnodup hx heo hxe
          rw [hxe2] at hid
          exact Nat.lt_irrefl _ hid
        have hrk : rankIn retBefore (ownerRows t aid) x ≠
            rankIn retBefore (ownerRows t aid) e :=
          rankIn_ne retBefore_transitive retBefore_irrefl
            retBefore_connected hx heo hxid
        omega
    · intro hlt
      exact Or.inl (by omega)
  rw [hcong]
  exact countP_rank_lt retBefore_transitive retBefore_irrefl
    retBefore_connected hnodup heo

lemma reindexTwoStep_eq {t : Table} {aid : Nat} (h : NodupIds t) :
    reindexTwoStep t aid = rankMap retBefore 0 t aid := by
  unfold reindexTwoStep
  rw [assignRanks_eq_rankMap h]
  have hnd2 : NodupIds (rankMap retBefore 10000 t aid) :=
    NodupIds_map (rankFun_myth_id retBefore t aid 10000) h
  rw [assignRanks_eq_rankMap hnd2]
  unfold rankMap
  rw [List.map_map]
  refine List.map_congr_left ?_
  intro e he
  simp only [Function.comp_apply]
  have hnodup : NodupIds (ownerRows t aid) := NodupIds_ownerRows h aid
  have hrows : ownerRows (t.map (rankFun retBefore t aid 10000)) aid =
      (ownerRows t aid).map (rankFun retBefore t aid 10000) :=
    ownerRows_map (rankFun_agent_id retBefore t aid 10000)
  by_cases hag : e.agent_id = aid
  · have heo : e ∈ ownerRows t aid := mem_ownerRows.mpr ⟨he, hag⟩
    rw [rankFun_owner hag]
    have hag2 : ({ e with position :=
        (rankIn retBefore (ownerRows t aid) e : Int) + 10000 } : Entry).agent_id
        = aid := hag
    rw [rankFun_owner hag2, rankFun_owner hag]
    refine Entry_eq_of_fields rfl rfl ?_ rfl
    rw [hrows, step2_rank hnodup heo]
  · rw [rankFun_not_owner hag, rankFun_not_owner hag, rankFun_not_owner hag]

lemma reindexByRetention_eq {t : Table} {aid : Nat} (h : NodupIds t) :
    reindexByRetention t aid = rankMap retBefore 0 t aid :=
  assignRanks_eq_rankMap h

lemma rankMap_ownerRows (t : Table) (aid : Nat) :
    ownerRows (rankMap retBefore 0 t aid) aid =
      (ownerRows t aid).map (fun e =>
        { e with position := (rankIn retBefore (ownerRows t aid) e : Int) }) := by
  unfold rankMap
  rw [ownerRows_map (rankFun_agent_id retBefore t aid 0)]
  refine List.map_congr_left ?_
  intro e he
  rw [rankFun_owner (mem_ownerRows.mp he).2]
  refine Entry_eq_of_fields rfl rfl ?_ rfl
  dsimp only
  omega

lemma rankMap_contiguous {t : Table} {aid : Nat} (h : NodupIds t) :
    ((ownerRows (rankMap retBefore 0 t aid) aid).map
      (fun e => e.position)).toFinset =
      (Finset.range (ownerRows (rankMap retBefore 0 t aid) aid).length).image
        (fun k : Nat => (k : Int)) := by
  rw [rankMap_ownerRows, List.map_map, List.length_map]
  have h1 : ((fun e : Entry => e.position) ∘ fun e : Entry =>
      { e with position := (rankIn retBefore (ownerRows t aid) e : Int) }) =
      ((fun n : Nat => (n : Int)) ∘ rankIn retBefore (ownerRows t aid)) := rfl
  rw [h1, ← List.map_map, list_toFinset_map,
    ranks_toFinset_range retBefore_transitive retBefore_irrefl
      retBefore_connected (NodupIds_ownerRows h aid)]

lemma rankMap_order {t : Table} {aid : Nat} (h : NodupIds t) :
    ∀ a ∈ ownerRows (rankMap retBefore 0 t aid) aid,
      ∀ b ∈ ownerRows (rankMap retBefore 0 t aid) aid,
        (a.position < b.position ↔ retBefore a b = true) := by
  have hnodup : NodupIds (ownerRows t aid) := NodupIds_ownerRows h aid
  rw [rankMap_ownerRows]
  intro a ha b hb
  rw [List.mem_map] at ha hb
  obtain ⟨x, hx, rfl⟩ := ha
  obtain ⟨y, hy, rfl⟩ := hb
  rw [retBefore_fields (x := { x with position :=
      (rankIn retBefore (ownerRows t aid) x : Int) }) (y := x)
    (e := { y with position := (rankIn retBefore (ownerRows t aid) y : Int) })
    (f := y) rfl rfl rfl rfl]
  by_cases hxy : x = y
  · subst hxy
    simp [retBefore_irrefl]
  · have hid : x.myth_id ≠ y.myth_id :=
      fun hxe => hxy (eq_of_mem_of_id_eq hnodup hx hy hxe)
    constructor
    · intro hlt
      refine lt_of_rankIn_lt retBefore_transitive retBefore_irrefl
        retBefore_connected hx hy hid ?_
      dsimp only at hlt
      omega
    · intro hret
      have := rankIn_strict_mono retBefore_transitive hx
        (retBefore_irrefl x) hret
      dsimp only
      omega

lemma maxPos_fold_spec :
    ∀ (l : Table) (acc : Option Entry) (v : Entry),
      l.foldl (fun acc e =>
        match acc with
        | none => some e
        | some m => if m.position < e.position then some e else acc) acc =
          some v →
      (v ∈ l ∨ acc = some v) ∧ (∀ e ∈ l, e.position ≤ v.position) ∧
        (∀ w, acc = some w → w.position ≤ v.position) := by
  intro l
  induction l with
  | nil =>
    intro acc v h
    simp only [List.foldl_nil] at h
    refine ⟨Or.inr h, by simp, ?_⟩
    intro w hw
    rw [hw] at h
    exact le_of_eq (congrArg Entry.position (Option.some.inj h))
  | cons a l ih =>
    intro acc v h
    rw [List.foldl_cons] at h
    cases acc with
    | none =>
      obtain ⟨h1, h2, h3⟩ := ih (some a) v h
      refine ⟨?_, ?_, ?_⟩
      · rcases h1 with h1 | h1
        · exact Or.inl (List.mem_cons_of_mem _ h1)
        · exact Or.inl ((Option.some.inj h1) ▸ List.mem_cons_self _ _)
      · intro e he
        rcases List.mem_cons.mp he with he | he
        · exact he ▸ h3 a rfl
        · exact h2 e he
      · intro w hw
        cases hw
    | some m =>
      by_cases hlt : m.position < a.position
      · simp only [hlt, if_pos] at h
        obtain ⟨h1, h2, h3⟩ := ih (some a) v h
        refine ⟨?_, ?_, ?_⟩
        · rcases h1 with h1 | h1
          · exact Or.inl (List.mem_cons_of_mem _ h1)
          · exact Or.inl ((Option.some.inj h1) ▸ List.mem_cons_self _ _)
        · intro e he
          rcases List.mem_cons.mp he with he | he
          · exact he ▸ h3 a rfl
          · exact h2 e he
        · intro w hw
          have hmw : m = w := Option.some.inj hw
          exact le_of_lt (lt_of_lt_of_le (hmw ▸ hlt) (h3 a rfl))
      · simp only [hlt, if_neg, if_false] at h
        obtain ⟨h1, h2, h3⟩ := ih (some m) v h
        refine ⟨?_, ?_, ?_⟩
        · rcases h1 with h1 | h1
          · exact Or.inl (List.mem_cons_of_mem _ h1)
          · exact Or.inr h1
        · intro e he
          rcases List.mem_cons.mp he with he | he
          · exact he ▸ (le_trans (le_of_not_lt hlt) (h3 m rfl))
          · exact h2 e he
        · exact h3

lemma maxPositionRow_spec {l : Table} {v : Entry}
    (h : maxPositionRow l = some v) :
    v ∈ l ∧ ∀ e ∈ l, e.position ≤ v.position := by
  obtain ⟨h1, h2, _⟩ := maxPos_fold_spec l none v h
  refine ⟨?_, h2⟩
  rcases h1 with h1 | h1
  · exact h1
  · cases h1

lemma maxPos_fold_some :
    ∀ (l : Table) (m : Entry), ∃ v,
      l.foldl (fun acc e =>
        match acc with
        | none => some e
        | some m => if m.position < e.position then some e else acc)
        (some m) = some v := by
  intro l
  induction l with
  | nil => intro m; exact ⟨m, rfl⟩
  | cons a l ih =>
    intro m
    rw [List.foldl_cons]
    by_cases hlt : m.position < a.position
    · simp only [hlt, if_pos]
      exact ih a
    · simp only [hlt, if_neg, if_false]
      exact ih m

lemma maxPositionRow_cons_some (a : Entry) (l : Table) :
    ∃ v, maxPositionRow (a :: l) = some v := by
  unfold maxPositionRow
  rw [List.foldl_cons]
  exact maxPos_fold_some l a

lemma insert_safe_ok_elim {db : DB} {mid aid : Nat} {r : Rat} {db' : DB}
    (h : insert_agent_myth_safe db mid aid r = .ok db') :
    ∃ a, findAgent db aid = some a ∧ a.memory_size ≠ 0 ∧
      mythAssigned db.agent_myths mid = false ∧ ¬ r ≤ 0 ∧
      db'.agents = db.agents ∧
      db'.agent_myths =
        reindexTwoStep (insTable db.agent_myths mid aid r a.memory_size) aid := by
  unfold insert_agent_myth_safe at h
  by_cases hr : r ≤ 0
  · rw [if_pos hr] at h; cases h
  · rw [if_neg hr] at h
    unfold insertAttemptBody at h
    cases hfa : findAgent db aid with
    | none =>
      rw [hfa] at h
      dsimp only at h
      cases h
    | some a =>
      rw [hfa] at h
      dsimp only at h
      by_cases hms : a.memory_size = 0
      · rw [if_pos (beq_iff_eq.mpr hms)] at h; cases h
      · have hmsb : (a.memory_size == 0) = false := by simp [hms]
        rw [hmsb] at h
        simp only [Bool.false_eq_true, if_false] at h
        by_cases hasg : mythAssigned db.agent_myths mid = true
        · rw [hasg] at h
          simp only [if_true] at h
          cases h
        · have hasg' : mythAssigned db.agent_myths mid = false := by
            rwa [Bool.not_eq_true] at hasg
          rw [hasg'] at h
          simp only [Bool.false_eq_true, if_false] at h
          refine ⟨a, rfl, hms, hasg', hr, ?_, ?_⟩
          · rw [← Except.ok.inj h]
          · rw [← Except.ok.inj h]
            unfold insTable insBase
            rfl

lemma shiftUp_myth_id (aid : Nat) (e : Entry) :
    ((fun e : Entry =>
      if e.agent_id == aid then { e with position := e.position + 10000 }
      else e) e).myth_id = e.myth_id := by
  dsimp only; split <;> rfl

lemma shiftUp_agent_id (aid : Nat) (e : Entry) :
    ((fun e : Entry =>
      if e.agent_id == aid then { e with position := e.position + 10000 }
      else e) e).agent_id = e.agent_id := by
  dsimp only; split <;> rfl

lemma shiftUp_retention (aid : Nat) (e : Entry) :
    ((fun e : Entry =>
      if e.agent_id == aid then { e with position := e.position + 10000 }
      else e) e).retention = e.retention := by
  dsimp only; split <;> rfl

lemma shiftDown_myth_id (aid mid : Nat) (e : Entry) :
    ((fun e : Entry =>
      if e.agent_id == aid && !(e.myth_id == mid) then
        { e with position := e.position - 9999 }
      else e) e).myth_id = e.myth_id := by
  dsimp only; split <;> rfl

lemma shiftDown_agent_id (aid mid : Nat) (e : Entry) :
    ((fun e : Entry =>
      if e.agent_id == aid && !(e.myth_id == mid) then
        { e with position := e.position - 9999 }
      else e) e).agent_id = e.agent_id := by
  dsimp only; split <;> rfl

lemma shiftDown_retention (aid mid : Nat) (e : Entry) :
    ((fun e : Entry =>
      if e.agent_id == aid && !(e.myth_id == mid) then
        { e with position := e.position - 9999 }
      else e) e).retention = e.retention := by
  dsimp only; split <;> rfl

lemma mythAssigned_map {t : Table} {f : Entry → Entry} {mid : Nat}
    (hf : ∀ e, (f e).myth_id = e.myth_id) :
    mythAssigned (t.map f) mid = mythAssigned t mid := by
  unfold mythAssigned
  rw [List.any_map]
  congr 1
  funext e
  simp [Function.comp, hf]

lemma mythAssigned_false_of_subset {t u : Table} {mid : Nat}
    (hsub : ∀ e ∈ u, e ∈ t) (hfree : mythAssigned t mid = false) :
    mythAssigned u mid = false := by
  rw [mythAssigned_false_iff] at *
  exact fun e he => hfree e (hsub e he)

lemma insBase_subset (t : Table) (aid : Nat) (ms : Nat) :
    ∀ e ∈ insBase t aid ms, e ∈ t := by
  intro e he
  unfold insBase at he
  split at he
  · unfold evictWorst at he
    split at he
    · exact List.mem_of_mem_filter he
    · exact he
  · exact he

lemma NodupIds_insBase {t : Table} (h : NodupIds t) (aid ms : Nat) :
    NodupIds (insBase t aid ms) := by
  unfold insBase
  split
  · unfold evictWorst
    split
    · exact NodupIds_filter h _
    · exact h
  · exact h

lemma ids_shiftUp (t : Table) (aid : Nat) :
    (shiftUp t aid).map (fun e => e.myth_id) = t.map (fun e => e.myth_id) := by
  unfold shiftUp
  rw [List.map_map]
  refine List.map_congr_left ?_
  intro e _
  exact shiftUp_myth_id aid e

lemma ids_shiftDownExcept (t : Table) (aid mid : Nat) :
    (shiftDownExcept t aid mid).map (fun e => e.myth_id) =
      t.map (fun e => e.myth_id) := by
  unfold shiftDownExcept
  rw [List.map_map]
  refine List.map_congr_left ?_
  intro e _
  exact shiftDown_myth_id aid mid e

lemma NodupIds_insTable {t : Table} {mid aid : Nat} {r : Rat} {ms : Nat}
    (h : NodupIds t) (hfree : mythAssigned t mid = false) :
    NodupIds (insTable t mid aid r ms) := by
  unfold insTable
  refine NodupIds_map (shiftDown_myth_id aid mid) ?_
  refine NodupIds_append_single ?_ ?_
  · unfold shiftUp
    exact NodupIds_map (shiftUp_myth_id aid) (NodupIds_insBase h aid ms)
  · unfold shiftUp
    rw [mythAssigned_map (shiftUp_myth_id aid)]
    exact mythAssigned_false_of_subset (insBase_subset t aid ms) hfree

lemma ownerRows_filter (t : Table) (p : Entry → Bool) (aid : Nat) :
    ownerRows (t.filter p) aid = (ownerRows t aid).filter p := by
  unfold ownerRows
  rw [List.filter_filter, List.filter_filter]
  congr 1
  funext e
  rw [Bool.and_comm]

lemma ownerIds_insTable (t : Table) (mid aid : Nat) (r : Rat) (ms : Nat) :
    (ownerRows (insTable t mid aid r ms) aid).map (fun e => e.myth_id) =
      (ownerRows (insBase t aid ms) aid).map (fun e => e.myth_id) ++ [mid] := by
  unfold insTable shiftDownExcept
  rw [ownerRows_map (shiftDown_agent_id aid mid), List.map_map]
  have hids : ((fun e : Entry => e.myth_id) ∘ fun e : Entry =>
      if e.agent_id == aid && !(e.myth_id == mid) then
        { e with position := e.position - 9999 }
      else e) = fun e : Entry => e.myth_id :=
    funext (shiftDown_myth_id aid mid)
  rw [hids, ownerRows_append]
  unfold shiftUp
  rw [ownerRows_map (shiftUp_agent_id aid), List.map_append, List.map_map]
  have hids2 : ((fun e : Entry => e.myth_id) ∘ fun e : Entry =>
      if e.agent_id == aid then { e with position := e.position + 10000 }
      else e) = fun e : Entry => e.myth_id :=
    funext (shiftUp_myth_id aid)
  rw [hids2]
  congr 1
  simp [ownerRows]

lemma length_filter_ne_victim {l : Table} (h : NodupIds l) {v : Entry}
    (hv : v ∈ l) :
    (l.filter (fun e => !(e.myth_id == v.myth_id))).length = l.length - 1 := by
  have hsplit := List.length_eq_countP_add_countP
    (fun e : Entry => e.myth_id == v.myth_id) l
  have hcount : l.countP (fun e : Entry => e.myth_id == v.myth_id) = 1 := by
    have hmem : v.myth_id ∈ l.map (fun e => e.myth_id) :=
      List.mem_map.mpr ⟨v, hv, rfl⟩
    have hone := List.count_eq_one_of_mem h hmem
    rw [List.count_eq_countP, List.countP_map] at hone
    rw [← hone]
    rfl
  have hfilt : (l.filter (fun e => !(e.myth_id == v.myth_id))).length =
      l.countP (fun e : Entry => !(e.myth_id == v.myth_id)) :=
    (List.countP_eq_length_filter _ _).symm
  rw [hfilt]
  have hcongr : l.countP (fun e : Entry => !(e.myth_id == v.myth_id)) =
      l.countP (fun e : Entry =>
        decide ¬((e.myth_id == v.myth_id) = true)) := by
    refine List.countP_congr ?_
    intro x _
    simp
  rw [hcongr, hsplit, hcount]
  omega

lemma ownerIds_rankMap (t : Table) (aid : Nat) :
    (ownerRows (rankMap retBefore 0 t aid) aid).map (fun e => e.myth_id) =
      (ownerRows t aid).map (fun e => e.myth_id) := by
  rw [rankMap_ownerRows, List.map_map]
  exact List.map_congr_left (fun e _ => rfl)

/-- C1: after every successful insert of `(myth_id, agent_id, retention)` via
`insert_agent_myth_safe`, the positions of the owner's rows are exactly the set
`{0, 1, ..., n-1}` for its row count `n`, and for any two rows of that owner,
`position_a < position_b` iff `(retention_a, -myth_id_a) >
(retention_b, -myth_id_b)` under retention-descending, myth-id-ascending
ordering (among equal retentions the lowest id gets the better position).
The hypothesis `NodupIds` is the schema constraint `UNIQUE (myth_id)`. -/
theorem C1_contiguous_ranking
    (db : DB) (mid aid : Nat) (r : Rat) (db' : DB)
    (hnd : NodupIds db.agent_myths)
    (hok : insert_agent_myth_safe db mid aid r = .ok db') :
    (((ownerRows db'.agent_myths aid).map (fun e => e.position)).toFinset =
      (Finset.range (ownerRows db'.agent_myths aid).length).image
        (fun k : Nat => (k : Int))) ∧
    ∀ a ∈ ownerRows db'.agent_myths aid, ∀ b ∈ ownerRows db'.agent_myths aid,
      (a.position < b.position ↔ retBefore a b = true) := by
  obtain ⟨a, hfa, hms, hfree, hr, hagents, htable⟩ := insert_safe_ok_elim hok
  have hnd4 : NodupIds (insTable db.agent_myths mid aid r a.memory_size) :=
    NodupIds_insTable hnd hfree
  rw [htable, reindexTwoStep_eq hnd4]
  exact ⟨rankMap_contiguous hnd4, rankMap_order hnd4⟩

/-- Witness for C1 at a concrete database. -/
theorem C1_contiguous_ranking_witness :
    NodupIds DBw.agent_myths ∧
    insert_agent_myth_safe DBw 7 1 2 = .ok DBw1 ∧
    ((((ownerRows DBw1.agent_myths 1).map (fun e => e.position)).toFinset =
      (Finset.range (ownerRows DBw1.agent_myths 1).length).image
        (fun k : Nat => (k : Int))) ∧
    ∀ a ∈ ownerRows DBw1.agent_myths 1, ∀ b ∈ ownerRows DBw1.agent_myths 1,
      (a.position < b.position ↔ retBefore a b = true)) :=
  ⟨by decide, by decide,
    C1_contiguous_ranking DBw 7 1 2 DBw1 (by decide) (by decide)⟩

/-- C9: after every successful `insert_agent_myth_safe`, the newly inserted
myth is present in the agent's memory — the eviction victim is chosen among
the pre-existing rows (the delete runs before the insert), so the new row is
never the immediate victim of its own insert, even at full capacity with the
lowest retention. -/
theorem C9_new_myth_present
    (db : DB) (mid aid : Nat) (r : Rat) (db' : DB)
    (hnd : NodupIds db.agent_myths)
    (hok : insert_agent_myth_safe db mid aid r = .ok db') :
    mid ∈ (ownerRows db'.agent_myths aid).map (fun e => e.myth_id) := by
  obtain ⟨a, hfa, hms, hfree, hr, hagents, htable⟩ := insert_safe_ok_elim hok
  have hnd4 : NodupIds (insTable db.agent_myths mid aid r a.memory_size) :=
    NodupIds_insTable hnd hfree
  rw [htable, reindexTwoStep_eq hnd4, ownerIds_rankMap, ownerIds_insTable]
  exact List.mem_append_right _ (List.mem_singleton.mpr rfl)

/-- Witness for C9: a full-capacity insert whose retention is lower than every
existing row's retention still leaves the new myth present. -/
theorem C9_new_myth_present_witness :
    NodupIds DBfull.agent_myths ∧
    insert_agent_myth_safe DBfull 7 1 1 =
      .ok (DB.mk [Agent.mk 1 2] [Entry.mk 5 1 0 3, Entry.mk 7 1 1 1]) ∧
    7 ∈ (ownerRows (DB.mk [Agent.mk 1 2]
      [Entry.mk 5 1 0 3, Entry.mk 7 1 1 1]).agent_myths 1).map
        (fun e => e.myth_id) :=
  ⟨by decide, by decide,
    C9_new_myth_present DBfull 7 1 1
      (DB.mk [Agent.mk 1 2] [Entry.mk 5 1 0 3, Entry.mk 7 1 1 1])
      (by decide) (by decide)⟩

/-- C2: for an owner whose current row count equals its capacity
(`memory_size`), a successful `insert_agent_myth_safe` deletes exactly one
pre-existing row — the one with the highest position, which under the ranking
invariant is the policy-worst row (lowest retention, ties toward the highest
myth id) — so the row count after the insert still equals the capacity. -/
theorem C2_capacity_eviction
    (db : DB) (mid aid : Nat) (r : Rat) (db' : DB) (a : Agent)
    (hnd : NodupIds db.agent_myths)
    (hinv : InvariantFor db.agent_myths aid)
    (hfa : findAgent db aid = some a)
    (hcap : (ownerRows db.agent_myths aid).length = a.memory_size)
    (hok : insert_agent_myth_safe db mid aid r = .ok db') :
    (ownerRows db'.agent_myths aid).length = a.memory_size ∧
    ∃ v, v ∈ ownerRows db.agent_myths aid ∧
      (∀ e ∈ ownerRows db.agent_myths aid, e.position ≤ v.position) ∧
      (∀ e ∈ ownerRows db.agent_myths aid,
        e.myth_id ≠ v.myth_id → retBefore e v = true) ∧
      (ownerRows db'.agent_myths aid).map (fun e => e.myth_id) =
        ((ownerRows db.agent_myths aid).filter
          (fun e => !(e.myth_id == v.myth_id))).map (fun e => e.myth_id)
          ++ [mid] := by
  obtain ⟨a', hfa', hms, hfree, hr, hagents, htable⟩ := insert_safe_ok_elim hok
  rw [hfa] at hfa'
  have haa : a' = a := (Option.some.inj hfa').symm
  subst haa
  have hnd4 : NodupIds (insTable db.agent_myths mid aid r a'.memory_size) :=
    NodupIds_insTable hnd hfree
  have hndrows : NodupIds (ownerRows db.agent_myths aid) :=
    NodupIds_ownerRows hnd aid
  have hlen1 : 1 ≤ (ownerRows db.agent_myths aid).length := by
    rw [hcap]
    omega
  obtain ⟨v, hmax⟩ : ∃ v,
      maxPositionRow (ownerRows db.agent_myths aid) = some v := by
    cases hrows : ownerRows db.agent_myths aid with
    | nil => rw [hrows] at hlen1; simp at hlen1
    | cons x l => exact hrows ▸ maxPositionRow_cons_some x l
  obtain ⟨hvmem, hvmax⟩ := maxPositionRow_spec hmax
  have hbase : insBase db.agent_myths aid a'.memory_size =
      db.agent_myths.filter (fun e => !(e.myth_id == v.myth_id)) := by
    unfold insBase
    rw [if_pos (le_of_eq hcap.symm)]
    unfold evictWorst
    rw [hmax]
  have hworst : ∀ e ∈ ownerRows db.agent_myths aid,
      e.myth_id ≠ v.myth_id → retBefore e v = true := by
    intro e he hid
    have hre : (rankIn retBefore (ownerRows db.agent_myths aid) e : Int) ≤
        rankIn retBefore (ownerRows db.agent_myths aid) v := by
      rw [← hinv e he, ← hinv v hvmem]
      exact hvmax e he
    have hne : rankIn retBefore (ownerRows db.agent_myths aid) e ≠
        rankIn retBefore (ownerRows db.agent_myths aid) v :=
      rankIn_ne retBefore_transitive retBefore_irrefl retBefore_connected
        he hvmem hid
    refine lt_of_rankIn_lt retBefore_transitive retBefore_irrefl
      retBefore_connected he hvmem hid ?_
    omega
  have hids : (ownerRows db'.agent_myths aid).map (fun e => e.myth_id) =
      ((ownerRows db.agent_myths aid).filter
        (fun e => !(e.myth_id == v.myth_id))).map (fun e => e.myth_id)
        ++ [mid] := by
    rw [htable, reindexTwoStep_eq hnd4, ownerIds_rankMap, ownerIds_insTable,
      hbase, ownerRows_filter]
  refine ⟨?_, v, hvmem, hvmax, hworst, hids⟩
  have hlen := congrArg List.length hids
  rw [List.length_map, List.length_append, List.length_map,
    List.length_singleton] at hlen
  rw [length_filter_ne_victim hndrows hvmem] at hlen
  omega

/-- Witness for C2 at a concrete full owner: myth 6 (position 1, worst
retention) is evicted and the count stays at capacity 2. -/
theorem C2_capacity_eviction_witness :
    NodupIds DBfull.agent_myths ∧
    InvariantFor DBfull.agent_myths 1 ∧
    findAgent DBfull 1 = some (Agent.mk 1 2) ∧
    (ownerRows DBfull.agent_myths 1).length = (Agent.mk 1 2).memory_size ∧
    insert_agent_myth_safe DBfull 7 1 1 =
      .ok (DB.mk [Agent.mk 1 2] [Entry.mk 5 1 0 3, Entry.mk 7 1 1 1]) ∧
    ((ownerRows (DB.mk [Agent.mk 1 2]
        [Entry.mk 5 1 0 3, Entry.mk 7 1 1 1]).agent_myths 1).length =
      (Agent.mk 1 2).memory_size ∧
    ∃ v, v ∈ ownerRows DBfull.agent_myths 1 ∧
      (∀ e ∈ ownerRows DBfull.agent_myths 1, e.position ≤ v.position) ∧
      (∀ e ∈ ownerRows DBfull.agent_myths 1,
        e.myth_id ≠ v.myth_id → retBefore e v = true) ∧
      (ownerRows (DB.mk [Agent.mk 1 2]
        [Entry.mk 5 1 0 3, Entry.mk 7 1 1 1]).agent_myths 1).map
          (fun e => e.myth_id) =
        ((ownerRows DBfull.agent_myths 1).filter
          (fun e => !(e.myth_id == v.myth_id))).map (fun e => e.myth_id)
          ++ [7]) :=
  ⟨by decide, by decide, by decide, by decide, by decide,
    C2_capacity_eviction DBfull 7 1 1
      (DB.mk [Agent.mk 1 2] [Entry.mk 5 1 0 3, Entry.mk 7 1 1 1])
      (Agent.mk 1 2) (by decide) (by decide) (by decide) (by decide)
      (by decide)⟩

lemma forall₂_map_map {R : Entry → Entry → Prop} {l : Table}
    {f g : Entry → Entry} (h : ∀ x ∈ l, R (f x) (g x)) :
    List.Forall₂ R (l.map f) (l.map g) := by
  induction l with
  | nil => exact List.Forall₂.nil
  | cons a l ih =>
    rw [List.map_cons, List.map_cons]
    exact List.Forall₂.cons (h a (List.mem_cons_self _ _))
      (ih (fun x hx => h x (List.mem_cons_of_mem _ hx)))

lemma posEquiv_ownerRows {aid : Nat} {t u : Table}
    (h : List.Forall₂ (PosEquiv aid) t u) :
    List.Forall₂ (fun x y => x.myth_id = y.myth_id ∧
      x.retention = y.retention) (ownerRows t aid) (ownerRows u aid) := by
  induction h with
  | nil => exact List.Forall₂.nil
  | cons hxy htail ih =>
    rename_i x y l₁ l₂
    have hagent : x.agent_id = y.agent_id := by
      rcases hxy with rfl | ⟨h1, h2, _, _⟩
      · rfl
      · rw [h1, h2]
    have hfields : x.myth_id = y.myth_id ∧ x.retention = y.retention := by
      rcases hxy with rfl | ⟨_, _, h3, h4⟩
      · exact ⟨rfl, rfl⟩
      · exact ⟨h3, h4⟩
    unfold ownerRows
    rw [List.filter_cons, List.filter_cons]
    by_cases hx : x.agent_id = aid
    · rw [if_pos (by simp [hx]), if_pos (by simp [hagent ▸ hx])]
      exact List.Forall₂.cons hfields ih
    · rw [if_neg (by simp [hx]), if_neg (by simp [hagent ▸ hx])]
      exact ih

lemma rankIn_congr_forall₂ {l₁ l₂ : Table}
    (h : List.Forall₂ (fun x y => x.myth_id = y.myth_id ∧
      x.retention = y.retention) l₁ l₂)
    {e₁ e₂ : Entry} (he : e₁.myth_id = e₂.myth_id ∧
      e₁.retention = e₂.retention) :
    rankIn retBefore l₁ e₁ = rankIn retBefore l₂ e₂ := by
  rw [rankIn_eq_countP, rankIn_eq_countP]
  induction h with
  | nil => rfl
  | cons hxy htail ih =>
    rename_i x y m₁ m₂
    rw [List.countP_cons, List.countP_cons]
    rw [retBefore_fields hxy.1 hxy.2 he.1 he.2]
    omega

lemma map_eq_of_forall₂ {R : Entry → Entry → Prop} {t u : Table}
    (h : List.Forall₂ R t u) {F G : Entry → Entry}
    (hFG : ∀ x y, R x y → F x = G y) : t.map F = u.map G := by
  induction h with
  | nil => rfl
  | cons hxy htail ih =>
    rw [List.map_cons, List.map_cons, hFG _ _ hxy, ih]

lemma rankMap_congr_posEquiv {aid : Nat} {t u : Table}
    (h : List.Forall₂ (PosEquiv aid) t u) :
    rankMap retBefore 0 t aid = rankMap retBefore 0 u aid := by
  have hrows := posEquiv_ownerRows h
  unfold rankMap
  refine map_eq_of_forall₂ h ?_
  intro x y hxy
  by_cases hx : x.agent_id = aid
  · have hy : y.agent_id = aid := by
      rcases hxy with rfl | ⟨_, h2, _, _⟩
      · exact hx
      · exact h2
    have hfields : x.myth_id = y.myth_id ∧ x.retention = y.retention := by
      rcases hxy with rfl | ⟨_, _, h3, h4⟩
      · exact ⟨rfl, rfl⟩
      · exact ⟨h3, h4⟩
    rw [rankFun_owner hx, rankFun_owner hy]
    refine Entry_eq_of_fields hfields.1 (by rw [hx, hy]) ?_ hfields.2
    dsimp only
    rw [rankIn_congr_forall₂ hrows hfields]
  · have hy : ¬ y.agent_id = aid := by
      rcases hxy with rfl | ⟨h1, _, _, _⟩
      · exact hx
      · exact absurd h1 hx
    rw [rankFun_not_owner hx, rankFun_not_owner hy]
    rcases hxy with rfl | ⟨h1, _, _, _⟩
    · rfl
    · exact absurd h1 hx

lemma forall₂_map_left {R : Entry → Entry → Prop} {l : Table}
    {f : Entry → Entry} (h : ∀ x ∈ l, R (f x) x) :
    List.Forall₂ R (l.map f) l := by
  induction l with
  | nil => exact List.Forall₂.nil
  | cons a l ih =>
    rw [List.map_cons]
    exact List.Forall₂.cons (h a (List.mem_cons_self _ _))
      (ih (fun x hx => h x (List.mem_cons_of_mem _ hx)))

lemma NodupIds_evictWorst {t : Table} (h : NodupIds t) (aid : Nat) :
    NodupIds (evictWorst t aid) := by
  unfold evictWorst
  split
  · exact NodupIds_filter h _
  · exact h

lemma evictWorst_subset (t : Table) (aid : Nat) :
    ∀ e ∈ evictWorst t aid, e ∈ t := by
  intro e he
  unfold evictWorst at he
  split at he
  · exact List.mem_of_mem_filter he
  · exact he

lemma insTable_unfold (t : Table) (mid aid : Nat) (r : Rat) (ms : Nat) :
    insTable t mid aid r ms =
      (insBase t aid ms).map (fun e =>
        (fun e : Entry =>
          if e.agent_id == aid && !(e.myth_id == mid) then
            { e with position := e.position - 9999 }
          else e)
        ((fun e : Entry =>
          if e.agent_id == aid then { e with position := e.position + 10000 }
          else e) e))
      ++ [⟨mid, aid, 0, r⟩] := by
  unfold insTable shiftDownExcept shiftUp
  rw [List.map_append, List.map_map]
  congr 1
  simp

lemma NodupIds_sessBase {t : Table} (h : NodupIds t) (aid ms : Nat) :
    NodupIds (sessBase t aid ms) := by
  unfold sessBase
  split
  · rw [assignRanks_eq_rankMap (NodupIds_evictWorst h aid)]
    exact NodupIds_map (rankFun_myth_id _ _ _ _) (NodupIds_evictWorst h aid)
  · exact h

lemma mythAssigned_sessBase {t : Table} {mid : Nat}
    (h : NodupIds t) (hfree : mythAssigned t mid = false) (aid ms : Nat) :
    mythAssigned (sessBase t aid ms) mid = false := by
  unfold sessBase
  split
  · rw [assignRanks_eq_rankMap (NodupIds_evictWorst h aid)]
    unfold rankMap
    rw [mythAssigned_map (rankFun_myth_id _ _ _ _)]
    exact mythAssigned_false_of_subset (evictWorst_subset t aid) hfree
  · exact hfree

lemma NodupIds_sessTable {t : Table} {mid aid : Nat} {r : Rat} {ms : Nat}
    (h : NodupIds t) (hfree : mythAssigned t mid = false) :
    NodupIds (sessTable t mid aid r ms) := by
  unfold sessTable
  exact NodupIds_append_single (NodupIds_sessBase h aid ms)
    (mythAssigned_sessBase h hfree aid ms)

lemma forall₂_ins_sess {t : Table} {mid aid : Nat} {r : Rat} {ms : Nat}
    (hnd : NodupIds t) (hfree : mythAssigned t mid = false) :
    List.Forall₂ (PosEquiv aid) (insTable t mid aid r ms)
      (sessTable t mid aid r ms) := by
  rw [insTable_unfold]
  unfold sessTable
  refine List.rel_append ?_
    (List.Forall₂.cons (Or.inr ⟨rfl, rfl, rfl, rfl⟩) List.Forall₂.nil)
  by_cases hful : ms ≤ (ownerRows t aid).length
  · have h1 : insBase t aid ms = evictWorst t aid := if_pos hful
    have h2 : sessBase t aid ms =
        (evictWorst t aid).map
          (rankFun posBefore (evictWorst t aid) aid 0) := by
      unfold sessBase
      rw [if_pos hful, assignRanks_eq_rankMap (NodupIds_evictWorst hnd aid)]
      rfl
    rw [h1, h2]
    refine forall₂_map_map ?_
    intro x hx
    have hxt : x ∈ t := evictWorst_subset t aid x hx
    have hxmid : x.myth_id ≠ mid := mythAssigned_false_iff.mp hfree x hxt
    by_cases hag : x.agent_id = aid
    · refine Or.inr ⟨?_, ?_, ?_, ?_⟩
      · rw [shiftDown_agent_id, shiftUp_agent_id]
        exact hag
      · rw [rankFun_agent_id]
        exact hag
      · rw [shiftDown_myth_id, shiftUp_myth_id, rankFun_myth_id]
      · rw [shiftDown_retention, shiftUp_retention, rankFun_retention]
    · have hsu : ((fun e : Entry =>
          if e.agent_id == aid then { e with position := e.position + 10000 }
          else e) x) = x := by
        dsimp only
        rw [if_neg]
        simp [hag]
      have hsd : ((fun e : Entry =>
          if e.agent_id == aid && !(e.myth_id == mid) then
            { e with position := e.position - 9999 }
          else e) x) = x := by
        dsimp only
        rw [if_neg]
        simp [hag]
      rw [hsu, hsd, rankFun_not_owner hag]
      exact Or.inl rfl
  · have h1 : insBase t aid ms = t := if_neg hful
    have h2 : sessBase t aid ms = t := if_neg hful
    rw [h1, h2]
    refine forall₂_map_left ?_
    intro x hxt
    have hxmid : x.myth_id ≠ mid := mythAssigned_false_iff.mp hfree x hxt
    by_cases hag : x.agent_id = aid
    · refine Or.inr ⟨?_, hag, ?_, ?_⟩
      · rw [shiftDown_agent_id, shiftUp_agent_id]
        exact hag
      · rw [shiftDown_myth_id, shiftUp_myth_id]
      · rw [shiftDown_retention, shiftUp_retention]
    · have hsu : ((fun e : Entry =>
          if e.agent_id == aid then { e with position := e.position + 10000 }
          else e) x) = x := by
        dsimp only
        rw [if_neg]
        simp [hag]
      have hsd : ((fun e : Entry =>
          if e.agent_id == aid && !(e.myth_id == mid) then
            { e with position := e.position - 9999 }
          else e) x) = x := by
        dsimp only
        rw [if_neg]
        simp [hag]
      rw [hsu, hsd]
      exact Or.inl rfl

lemma ins_sess_tables_eq {t : Table} {mid aid : Nat} {r : Rat} {ms : Nat}
    (hnd : NodupIds t) (hfree : mythAssigned t mid = false) :
    reindexTwoStep (insTable t mid aid r ms) aid =
      reindexByRetention (sessTable t mid aid r ms) aid := by
  rw [reindexTwoStep_eq (NodupIds_insTable hnd hfree),
    reindexByRetention_eq (NodupIds_sessTable hnd hfree)]
  exact rankMap_congr_posEquiv (forall₂_ins_sess hnd hfree)

/-- C10: `insert_agent_myth_safe` and `insert_agent_myth_safe_with_session`
are observationally equivalent in the absence of concurrency: from the same
starting state satisfying the contiguous-ordering invariant (and the schema's
`myth_id` uniqueness), for the same `(myth_id, agent_id, retention)` input,
both either succeed with the identical final rows (same positions and
retentions) or both fail with the same error, leaving the state unchanged. -/
theorem C10_safe_equals_with_session (db : DB) (mid aid : Nat) (r : Rat)
    (hnd : NodupIds db.agent_myths)
    (hinv : InvariantFor db.agent_myths aid) :
    insert_agent_myth_safe db mid aid r =
      insert_agent_myth_safe_with_session db mid aid r := by
  clear hinv
  unfold insert_agent_myth_safe insert_agent_myth_safe_with_session
    insertAttemptBody
  by_cases hr : r ≤ 0
  · rw [if_pos hr, if_pos hr]
  · rw [if_neg hr, if_neg hr]
    cases hfa : findAgent db aid with
    | none => rfl
    | some a =>
      dsimp only
      cases hmsb : (a.memory_size == 0) with
      | true => rfl
      | false =>
        rw [if_neg (show ¬(false = true) by simp),
          if_neg (show ¬(false = true) by simp)]
        cases hasg : mythAssigned db.agent_myths mid with
        | true => rfl
        | false =>
          rw [if_neg (show ¬(false = true) by simp),
            if_neg (show ¬(false = true) by simp)]
          exact congrArg (fun tb => Except.ok (DB.mk db.agents tb))
            (ins_sess_tables_eq hnd hasg)

/-- Witness for C10 at a concrete full owner. -/
theorem C10_safe_equals_with_session_witness :
    NodupIds DBfull.agent_myths ∧
    InvariantFor DBfull.agent_myths 1 ∧
    insert_agent_myth_safe DBfull 7 1 1 =
      insert_agent_myth_safe_with_session DBfull 7 1 1 :=
  ⟨by decide, by decide,
    C10_safe_equals_with_session DBfull 7 1 1 (by decide) (by decide)⟩

lemma assignFun_myth_id (lt : Entry → Entry → Bool) (off : Int) (rows : Table)
    (e : Entry) :
    (match rows.find? (fun r : Entry => r.myth_id == e.myth_id) with
      | some r => { e with position := (rankIn lt rows r : Int) + off }
      | none => e).myth_id = e.myth_id := by
  cases rows.find? (fun r : Entry => r.myth_id == e.myth_id) <;> rfl

lemma assignFun_agent_id (lt : Entry → Entry → Bool) (off : Int) (rows : Table)
    (e : Entry) :
    (match rows.find? (fun r : Entry => r.myth_id == e.myth_id) with
      | some r => { e with position := (rankIn lt rows r : Int) + off }
      | none => e).agent_id = e.agent_id := by
  cases rows.find? (fun r : Entry => r.myth_id == e.myth_id) <;> rfl

lemma assignFun_retention (lt : Entry → Entry → Bool) (off : Int) (rows : Table)
    (e : Entry) :
    (match rows.find? (fun r : Entry => r.myth_id == e.myth_id) with
      | some r => { e with position := (rankIn lt rows r : Int) + off }
      | none => e).retention = e.retention := by
  cases rows.find? (fun r : Entry => r.myth_id == e.myth_id) <;> rfl

/-- A table of the shape produced by the retention reorder is a fixed point of
the retention reorder. -/
lemma assignRanks_map_fixpoint (t : Table) (aid : Nat) {F : Entry → Entry}
    (hFid : ∀ x, (F x).myth_id = x.myth_id)
    (hFagent : ∀ x, (F x).agent_id = x.agent_id)
    (hFret : ∀ x, (F x).retention = x.retention)
    (hFsome : ∀ e r, (ownerRows t aid).find?
      (fun r : Entry => r.myth_id == e.myth_id) = some r →
      F e = { e with position :=
        (rankIn retBefore (ownerRows t aid) r : Int) + 0 }) :
    assignRanks retBefore 0 (t.map F) aid = t.map F := by
  unfold assignRanks
  dsimp only
  conv_lhs => rw [List.map_map]
  refine List.map_congr_left ?_
  intro e he
  simp only [Function.comp_apply]
  rw [ownerRows_map hFagent, List.find?_map]
  have hpred : ((fun r : Entry => r.myth_id == (F e).myth_id) ∘ F) =
      (fun r : Entry => r.myth_id == e.myth_id) := by
    funext r
    simp only [Function.comp_apply, hFid r, hFid e]
  rw [hpred]
  cases hfe : (ownerRows t aid).find?
      (fun r : Entry => r.myth_id == e.myth_id) with
  | none =>
    rw [Option.map_none']
  | some r =>
    rw [Option.map_some']
    dsimp only
    have hrank : rankIn retBefore ((ownerRows t aid).map F) (F r) =
        rankIn retBefore (ownerRows t aid) r :=
      rankIn_congr_forall₂
        (forall₂_map_left (fun x _ => ⟨hFid x, hFret x⟩)) ⟨hFid r, hFret r⟩
    rw [hrank, hFsome e r hfe]

/-- C6: the reindex operation (recompute all positions for one owner by
sorting rows by retention descending, myth id ascending, and assigning
positions 0..n-1, as the single-statement reorder of the insert code paths
does) is idempotent: applying it twice in a row without intervening mutation
yields the same state as applying it once, on every membership state. -/
theorem C6_reindex_idempotent (t : Table) (aid : Nat) :
    reindexByRetention (reindexByRetention t aid) aid =
      reindexByRetention t aid := by
  have h := assignRanks_map_fixpoint t aid
    (F := fun e : Entry =>
      match (ownerRows t aid).find?
          (fun r : Entry => r.myth_id == e.myth_id) with
      | some r =>
        { e with position := (rankIn retBefore (ownerRows t aid) r : Int) + 0 }
      | none => e)
    (fun x => assignFun_myth_id retBefore 0 (ownerRows t aid) x)
    (fun x => assignFun_agent_id retBefore 0 (ownerRows t aid) x)
    (fun x => assignFun_retention retBefore 0 (ownerRows t aid) x)
    (fun e r hfe => by dsimp only; rw [hfe])
  exact h

/-- C3: `insert_agent_myth_safe` fails, each as a distinct failure exit and
with zero effect on the membership table (the transaction is rolled back),
whenever the retention is non-positive (retention validation), the owner id is
unknown (not found), the owner's capacity is 0 (capacity validation), or the
myth is already present anywhere in the table (conflict); and none of these
definitive failures is retried: a body that reaches a `return` ends the retry
loop at once, with no backoff sleep. The guards of each conjunct mirror the
order in which the code performs the checks. -/
theorem C3_definitive_failures (db : DB) (mid aid : Nat) (r : Rat) :
    (r ≤ 0 → insert_agent_myth_safe db mid aid r =
      .error .retentionNonPositive ∧ runInsert db mid aid r = (false, db)) ∧
    (¬ r ≤ 0 → findAgent db aid = none →
      insert_agent_myth_safe db mid aid r = .error .agentNotFound ∧
      runInsert db mid aid r = (false, db)) ∧
    (∀ a, ¬ r ≤ 0 → findAgent db aid = some a → a.memory_size = 0 →
      insert_agent_myth_safe db mid aid r = .error .zeroMemorySize ∧
      runInsert db mid aid r = (false, db)) ∧
    (∀ a, ¬ r ≤ 0 → findAgent db aid = some a → a.memory_size ≠ 0 →
      mythAssigned db.agent_myths mid = true →
      insert_agent_myth_safe db mid aid r = .error .mythAlreadyAssigned ∧
      runInsert db mid aid r = (false, db)) ∧
    (∀ outcomes : Nat → AttemptOutcome, ∀ b : Bool, outcomes 0 = .ok b →
      retryRun outcomes 5 0 = (b, [])) := by
  have hrun : ∀ err : InsErr, insert_agent_myth_safe db mid aid r = .error err →
      runInsert db mid aid r = (false, db) := by
    intro err herr
    unfold runInsert
    rw [herr]
  refine ⟨?_, ?_, ?_, ?_, ?_⟩
  · intro hr
    have h : insert_agent_myth_safe db mid aid r =
        .error .retentionNonPositive := by
      unfold insert_agent_myth_safe
      rw [if_pos hr]
    exact ⟨h, hrun _ h⟩
  · intro hr hfa
    have h : insert_agent_myth_safe db mid aid r = .error .agentNotFound := by
      unfold insert_agent_myth_safe insertAttemptBody
      rw [if_neg hr, hfa]
    exact ⟨h, hrun _ h⟩
  · intro a hr hfa hms
    have h : insert_agent_myth_safe db mid aid r = .error .zeroMemorySize := by
      unfold insert_agent_myth_safe insertAttemptBody
      rw [if_neg hr, hfa]
      dsimp only
      rw [if_pos (beq_iff_eq.mpr hms)]
    exact ⟨h, hrun _ h⟩
  · intro a hr hfa hms hasg
    have h : insert_agent_myth_safe db mid aid r =
        .error .mythAlreadyAssigned := by
      unfold insert_agent_myth_safe insertAttemptBody
      rw [if_neg hr, hfa]
      dsimp only
      rw [if_neg (by simp [hms]), if_pos hasg]
    exact ⟨h, hrun _ h⟩
  · intro outcomes b hob
    unfold retryRun
    rw [if_pos (by omega : (0:Nat) < 5), hob]

lemma retryRun_char_aux : ∀ (d n a : Nat) (outcomes : Nat → AttemptOutcome),
    n - a = d → a < n →
    ∃ k, a ≤ k ∧ k < n ∧
      (∀ i, a ≤ i → i < k → outcomes i = .raiseUnique) ∧
      (retryRun outcomes n a).2 =
        (List.range (k - a)).map (fun j => backoffDelay (a + j)) ∧
      ((∃ b, outcomes k = .ok b ∧ (retryRun outcomes n a).1 = b) ∨
       (outcomes k = .raiseOther ∧ (retryRun outcomes n a).1 = false) ∨
       (outcomes k = .raiseUnique ∧ k = n - 1 ∧
         (retryRun outcomes n a).1 = false)) := by
  intro d
  induction d with
  | zero =>
    intro n a outcomes hd ha
    omega
  | succ d ih =>
    intro n a outcomes hd ha
    rw [retryRun]
    rw [if_pos ha]
    cases ho : outcomes a with
    | ok b =>
      refine ⟨a, le_refl a, ha, by omega, ?_, Or.inl ⟨b, ho, rfl⟩⟩
      simp
    | raiseOther =>
      refine ⟨a, le_refl a, ha, by omega, ?_, Or.inr (Or.inl ⟨ho, rfl⟩)⟩
      simp
    | raiseUnique =>
      by_cases hlast : a < n - 1
      · rw [if_pos hlast]
        obtain ⟨k, hk1, hk2, hkuniq, hsleep, hres⟩ :=
          ih n (a + 1) outcomes (by omega) (by omega)
        have hrhs : (List.range (k - a)).map (fun j => backoffDelay (a + j)) =
            backoffDelay a ::
              (List.range (k - (a + 1))).map
                (fun j => backoffDelay ((a + 1) + j)) := by
          have hka : k - a = (k - (a + 1)) + 1 := by omega
          rw [hka, List.range_succ_eq_map, List.map_cons, List.map_map]
          congr 1
          refine List.map_congr_left ?_
          intro j _
          simp only [Function.comp_apply]
          congr 1
          omega
        refine ⟨k, by omega, hk2, ?_, ?_, ?_⟩
        · intro i hi1 hi2
          by_cases hia : i = a
          · rw [hia]; exact ho
          · exact hkuniq i (by omega) hi2
        · dsimp only
          rw [hsleep, hrhs]
        · dsimp only
          exact hres
      · rw [if_neg hlast]
        refine ⟨a, le_refl a, ha, by omega, by simp,
          Or.inr (Or.inr ⟨ho, by omega, rfl⟩)⟩

/-- C4 (amended): in `insert_agent_myth_safe`, only an exception carrying the
uniqueness-constraint-violation text (the transient same-item race) causes the
attempt sequence to be re-executed, up to the fixed bound of 5 attempts, with
deterministic (not jittered) exponential backoff `0.01 * 2 ^ attempt` seconds;
exhausting the retries surfaces the conflict as the `False` result to the
caller, and every other outcome ends the loop immediately without a retry. -/
theorem C4_retry_only_on_unique_conflict (outcomes : Nat → AttemptOutcome) :
    ∃ k, k < 5 ∧
      (∀ i, i < k → outcomes i = .raiseUnique) ∧
      (retryRun outcomes 5 0).2 = (List.range k).map backoffDelay ∧
      (∀ i, backoffDelay i = (1 / 100 : Rat) * 2 ^ i) ∧
      ((∃ b, outcomes k = .ok b ∧ (retryRun outcomes 5 0).1 = b) ∨
       (outcomes k = .raiseOther ∧ (retryRun outcomes 5 0).1 = false) ∨
       (outcomes k = .raiseUnique ∧ k = 4 ∧
         (retryRun outcomes 5 0).1 = false)) := by
  obtain ⟨k, _, hk2, hkuniq, hsleep, hres⟩ :=
    retryRun_char_aux 5 5 0 outcomes rfl (by omega)
  refine ⟨k, hk2, fun i hi => hkuniq i (by omega) hi, ?_, fun i => rfl, hres⟩
  rw [hsleep]
  have h0 : k - 0 = k := by omega
  rw [h0]
  refine List.map_congr_left ?_
  intro j _
  congr 1
  omega

/-- Counterexample to the "jittered" part of C4 as stated: on the concrete
trace in which every attempt raises the uniqueness violation, the backoff
delays are exactly the deterministic values `0.01 * 2 ^ attempt`, i.e.
`[0.01, 0.02, 0.04, 0.08]` seconds, with no jitter applied
(`time.sleep(0.01 * (2 ** attempt))` has no random component). -/
theorem C4_backoff_not_jittered :
    retryRun (fun _ => AttemptOutcome.raiseUnique) 5 0 =
      (false, [1/100, 1/50, 1/25, 2/25]) := by
  rw [retryRun]
  norm_num
  rw [retryRun]
  norm_num
  rw [retryRun]
  norm_num
  rw [retryRun]
  norm_num
  rw [retryRun]
  norm_num
  unfold backoffDelay
  norm_num

lemma applyPairs_all_found {aid : Nat} :
    ∀ (pairs : List (Nat × Rat)) (t : Table),
      (∀ p ∈ pairs, ∃ e ∈ t, e.myth_id = p.1 ∧ e.agent_id = aid) →
      applyPairs t aid pairs = some (pairs.foldl (fun acc mr =>
        acc.map (fun e =>
          if e.myth_id == mr.1 && e.agent_id == aid then
            { e with retention := mr.2 }
          else e)) t) := by
  intro pairs
  induction pairs with
  | nil => intro t _; rfl
  | cons p rest ih =>
    intro t hall
    obtain ⟨m, r⟩ := p
    obtain ⟨e, he, hid, hag⟩ := hall (m, r) (List.mem_cons_self _ _)
    unfold applyPairs
    rw [if_pos]
    · rw [List.foldl_cons]
      refine ih _ ?_
      intro q hq
      obtain ⟨f, hf, hfid, hfag⟩ := hall q (List.mem_cons_of_mem _ hq)
      refine ⟨(fun e : Entry =>
        if e.myth_id == m && e.agent_id == aid then
          { e with retention := r } else e) f, List.mem_map_of_mem _ hf, ?_⟩
      dsimp only
      split <;> exact ⟨hfid, hfag⟩
    · rw [List.any_eq_true]
      exact ⟨e, he, by simp [hid, hag]⟩

lemma applyPairs_missing {aid : Nat} :
    ∀ (pairs : List (Nat × Rat)) (t : Table),
      (∃ p ∈ pairs, ∀ e ∈ t, ¬ (e.myth_id = p.1 ∧ e.agent_id = aid)) →
      applyPairs t aid pairs = none := by
  intro pairs
  induction pairs with
  | nil =>
    intro t h
    obtain ⟨p, hp, _⟩ := h
    cases hp
  | cons q rest ih =>
    intro t h
    obtain ⟨m, r⟩ := q
    unfold applyPairs
    by_cases hany : t.any (fun e => e.myth_id == m && e.agent_id == aid) = true
    · rw [if_pos hany]
      obtain ⟨p, hp, hmiss⟩ := h
      rcases List.mem_cons.mp hp with hpq | hp2
      · exfalso
        rw [List.any_eq_true] at hany
        obtain ⟨e, he, hpred⟩ := hany
        simp only [Bool.and_eq_true, beq_iff_eq] at hpred
        exact hmiss e he (by rw [hpq]; exact hpred)
      · refine ih _ ⟨p, hp2, ?_⟩
        intro e' he'
        rw [List.mem_map] at he'
        obtain ⟨e, he, rfl⟩ := he'
        have := hmiss e he
        split <;> exact this
    · rw [if_neg hany]

/-- C5: `update_retentions_and_reorder` is atomic all-or-nothing: the empty
list is a no-op that reports success; if every pair's myth currently belongs
to the agent, all retention updates are applied and the reindex function is
invoked exactly once on the result; if any pair's myth does not belong to the
agent, the operation reports failure and leaves the table exactly as it was
(the transaction is rolled back, undoing any updates already applied). -/
theorem C5_bulk_update_atomic (t : Table) (aid : Nat) (pairs : List (Nat × Rat)) :
    (pairs = [] → update_retentions_and_reorder t aid pairs = (true, t)) ∧
    (pairs ≠ [] →
      (∀ p ∈ pairs, ∃ e ∈ t, e.myth_id = p.1 ∧ e.agent_id = aid) →
      update_retentions_and_reorder t aid pairs =
        (true, recalculate_agent_myth_positions_by_retention
          (pairs.foldl (fun acc mr =>
            acc.map (fun e =>
              if e.myth_id == mr.1 && e.agent_id == aid then
                { e with retention := mr.2 }
              else e)) t) aid)) ∧
    ((∃ p ∈ pairs, ∀ e ∈ t, ¬ (e.myth_id = p.1 ∧ e.agent_id = aid)) →
      update_retentions_and_reorder t aid pairs = (false, t)) := by
  refine ⟨?_, ?_, ?_⟩
  · intro hnil
    subst hnil
    rfl
  · intro hne hall
    unfold update_retentions_and_reorder
    rw [if_neg (by simpa using hne)]
    rw [applyPairs_all_found pairs t hall]
  · intro hmiss
    have hne : pairs ≠ [] := by
      obtain ⟨p, hp, _⟩ := hmiss
      intro h
      rw [h] at hp
      cases hp
    unfold update_retentions_and_reorder
    rw [if_neg (by simpa using hne)]
    rw [applyPairs_missing pairs t hmiss]

/-- C7: `get_myth_ids_and_retention_from_agents_memory` returns the agent's
`(myth_id, retention)` rows as two parallel lists of equal length, ordered
rank-ascending: the paired list is a permutation of the agent's rows and is
sorted best-first under RankingPolicy (retention descending, myth id
ascending), position 0 — the highest-retention row — first. -/
theorem C7_query_rank_ascending (t : Table) (aid : Nat)
    (hnd : NodupIds t) (hinv : InvariantFor t aid) :
    ((get_myth_ids_and_retention_from_agents_memory t aid).1).length =
      ((get_myth_ids_and_retention_from_agents_memory t aid).2).length ∧
    (((get_myth_ids_and_retention_from_agents_memory t aid).1).zip
      ((get_myth_ids_and_retention_from_agents_memory t aid).2)).Perm
      ((ownerRows t aid).map (fun e => (e.myth_id, e.retention))) ∧
    (((get_myth_ids_and_retention_from_agents_memory t aid).1).zip
      ((get_myth_ids_and_retention_from_agents_memory t aid).2)).Pairwise
      (fun p q : Nat × Rat => q.2 < p.2 ∨ (p.2 = q.2 ∧ p.1 < q.1)) := by
  have hnodup : NodupIds (ownerRows t aid) := NodupIds_ownerRows hnd aid
  unfold get_myth_ids_and_retention_from_agents_memory
  dsimp only
  rw [List.zip_map']
  have hperm : ((ownerRows t aid).mergeSort
      (fun a b => decide (a.position ≤ b.position))).Perm
      (ownerRows t aid) := List.mergeSort_perm _ _
  refine ⟨by rw [List.length_map, List.length_map], hperm.map _, ?_⟩
  have hsorted : ((ownerRows t aid).mergeSort
      (fun a b => decide (a.position ≤ b.position))).Pairwise
      (fun a b => (fun a b : Entry =>
        decide (a.position ≤ b.position)) a b = true) :=
    List.sorted_mergeSort
      (by intro a b c hab hbc
          simp only [decide_eq_true_eq] at *
          exact le_trans hab hbc)
      (by intro a b
          simp only [Bool.or_eq_true, decide_eq_true_eq]
          exact le_total a.position b.position)
      (ownerRows t aid)
  have hnodup2 : NodupIds ((ownerRows t aid).mergeSort
      (fun a b => decide (a.position ≤ b.position))) := by
    unfold NodupIds
    rw [(hperm.map (fun e => e.myth_id)).nodup_iff]
    exact hnodup
  have hpne := pairwise_ne_ids hnodup2
  have hcomb := hsorted.and hpne
  have hret : ((ownerRows t aid).mergeSort
      (fun a b => decide (a.position ≤ b.position))).Pairwise
      (fun a b => retBefore a b = true) := by
    refine hcomb.imp_of_mem ?_
    intro a b ha hb hab
    obtain ⟨hle, hne⟩ := hab
    have ha2 : a ∈ ownerRows t aid := hperm.mem_iff.mp ha
    have hb2 : b ∈ ownerRows t aid := hperm.mem_iff.mp hb
    simp only [decide_eq_true_eq] at hle
    have hra : (rankIn retBefore (ownerRows t aid) a : Int) ≤
        rankIn retBefore (ownerRows t aid) b := by
      rw [← hinv a ha2, ← hinv b hb2]
      exact hle
    have hrne : rankIn retBefore (ownerRows t aid) a ≠
        rankIn retBefore (ownerRows t aid) b :=
      rankIn_ne retBefore_transitive retBefore_irrefl retBefore_connected
        ha2 hb2 hne
    refine lt_of_rankIn_lt retBefore_transitive retBefore_irrefl
      retBefore_connected ha2 hb2 hne ?_
    omega
  refine hret.map _ ?_
  intro a b hab
  rw [retBefore_iff] at hab
  exact hab

/-- Witness for C3: each definitive failure at a concrete database, and the
retry loop ending at once on a definitive failure. -/
theorem C3_definitive_failures_witness :
    (insert_agent_myth_safe DBw 100 1 0 = .error .retentionNonPositive ∧
      runInsert DBw 100 1 0 = (false, DBw)) ∧
    (insert_agent_myth_safe DBw 100 99 1 = .error .agentNotFound ∧
      runInsert DBw 100 99 1 = (false, DBw)) ∧
    (insert_agent_myth_safe DBzero 100 3 1 = .error .zeroMemorySize ∧
      runInsert DBzero 100 3 1 = (false, DBzero)) ∧
    (insert_agent_myth_safe DBw 5 2 1 = .error .mythAlreadyAssigned ∧
      runInsert DBw 5 2 1 = (false, DBw)) ∧
    retryRun (fun _ => AttemptOutcome.ok false) 5 0 = (false, []) :=
  ⟨(C3_definitive_failures DBw 100 1 0).1 (by decide),
   (C3_definitive_failures DBw 100 99 1).2.1 (by decide) (by decide),
   (C3_definitive_failures DBzero 100 3 1).2.2.1 (Agent.mk 3 0)
     (by decide) (by decide) (by decide),
   (C3_definitive_failures DBw 5 2 1).2.2.2.1 (Agent.mk 2 2)
     (by decide) (by decide) (by decide) (by decide),
   (C3_definitive_failures DBw 0 0 1).2.2.2.2 (fun _ => AttemptOutcome.ok false)
     false rfl⟩

/-- Witness for C4 at the all-conflicts trace. -/
theorem C4_retry_only_on_unique_conflict_witness :
    ∃ k, k < 5 ∧
      (∀ i, i < k → (fun _ => AttemptOutcome.raiseUnique) i =
        AttemptOutcome.raiseUnique) ∧
      (retryRun (fun _ => AttemptOutcome.raiseUnique) 5 0).2 =
        (List.range k).map backoffDelay ∧
      (∀ i, backoffDelay i = (1 / 100 : Rat) * 2 ^ i) ∧
      ((∃ b, (fun _ => AttemptOutcome.raiseUnique) k = AttemptOutcome.ok b ∧
          (retryRun (fun _ => AttemptOutcome.raiseUnique) 5 0).1 = b) ∨
       ((fun _ => AttemptOutcome.raiseUnique) k = AttemptOutcome.raiseOther ∧
          (retryRun (fun _ => AttemptOutcome.raiseUnique) 5 0).1 = false) ∨
       ((fun _ => AttemptOutcome.raiseUnique) k = AttemptOutcome.raiseUnique ∧
          k = 4 ∧
          (retryRun (fun _ => AttemptOutcome.raiseUnique) 5 0).1 = false)) :=
  C4_retry_only_on_unique_conflict (fun _ => AttemptOutcome.raiseUnique)

/-- Witness for C5: a successful bulk update with all myths owned, at a
concrete database. -/
theorem C5_bulk_update_atomic_witness :
    ([((5 : Nat), (1 : Rat)), (6, 4)] ≠ ([] : List (Nat × Rat))) ∧
    (∀ p ∈ [((5 : Nat), (1 : Rat)), (6, 4)],
      ∃ e ∈ DBfull.agent_myths, e.myth_id = p.1 ∧ e.agent_id = 1) ∧
    update_retentions_and_reorder DBfull.agent_myths 1 [(5, 1), (6, 4)] =
      (true, recalculate_agent_myth_positions_by_retention
        (([((5 : Nat), (1 : Rat)), (6, 4)]).foldl (fun acc mr =>
          acc.map (fun e =>
            if e.myth_id == mr.1 && e.agent_id == 1 then
              { e with retention := mr.2 }
            else e)) DBfull.agent_myths) 1) :=
  ⟨by decide, by decide,
    (C5_bulk_update_atomic DBfull.agent_myths 1 [(5, 1), (6, 4)]).2.1
      (by decide) (by decide)⟩

/-- Witness for C7 at a concrete database. -/
theorem C7_query_rank_ascending_witness :
    NodupIds DBfull.agent_myths ∧
    InvariantFor DBfull.agent_myths 1 ∧
    (((get_myth_ids_and_retention_from_agents_memory
        DBfull.agent_myths 1).1).length =
      ((get_myth_ids_and_retention_from_agents_memory
        DBfull.agent_myths 1).2).length ∧
    (((get_myth_ids_and_retention_from_agents_memory
        DBfull.agent_myths 1).1).zip
      ((get_myth_ids_and_retention_from_agents_memory
        DBfull.agent_myths 1).2)).Perm
      ((ownerRows DBfull.agent_myths 1).map
        (fun e => (e.myth_id, e.retention))) ∧
    (((get_myth_ids_and_retention_from_agents_memory
        DBfull.agent_myths 1).1).zip
      ((get_myth_ids_and_retention_from_agents_memory
        DBfull.agent_myths 1).2)).Pairwise
      (fun p q : Nat × Rat => q.2 < p.2 ∨ (p.2 = q.2 ∧ p.1 < q.1))) :=
  ⟨by decide, by decide,
    C7_query_rank_ascending DBfull.agent_myths 1 (by decide) (by decide)⟩
